import Mathlib

/-!
skyflow-go: bulk insert — validation, request construction, response reconciliation.

A shallow embedding of `skyflow/vault-api/insert.go` and of the validation, the
path-parameter substitution and the query-parameter check of
`skyflow/vault-api/invokeConnection.go`.

* Go values of static type `interface{}` are the inductive `GoVal`.
* A Go `map[string]interface{}` is an association list read with `mapGet` and written
  with `mapSet`; the functions below only ever look a key up, write a key, take the
  length or ask whether some key is empty, so the iteration order of a Go map is never
  observed.
* A Go run-time panic (failed type assertion, index out of range) is the `Except.error`
  side of `Except Panic`.
* Go `int` indices are `Int`; lengths are far below 2^63, so no index computation wraps.
* `buildResponse` writes into maps it took out of the response (`record["table"] = ...`).
  The maps of a response decoded by `json.Unmarshal` are distinct, non-nil objects, every
  loop pass reads entries no earlier pass wrote to, and only the returned value is
  observed, so a write is the pure update `mapSet`.
* Calls to the logger do not influence any returned value and are left out.
-/

set_option autoImplicit false

namespace Skyflow

/-! ## Go values -/

/-- A value held in a Go `interface{}`. `slice` is `[]interface{}`, `map` is
`map[string]interface{}`, `other` is a value of any further dynamic type. -/
inductive GoVal where
  | nil
  | bool (b : Bool)
  | num (n : Int)
  | str (s : String)
  | slice (xs : List GoVal)
  | map (m : List (String × GoVal))
  | other (typ : String)

/-- The Go type `map[string]interface{}`. -/
abbrev GoMap := List (String × GoVal)

/-- Run-time panics of the Go code. -/
inductive Panic where
  | typeAssertion
  | indexOutOfRange
  | nilDereference
  deriving DecidableEq, Repr

/-- Reading `m[k]`: the stored value, or `nil` when the key is absent. -/
def mapGet : GoMap → String → GoVal
  | [], _ => GoVal.nil
  | (k', v) :: rest, k => if k' = k then v else mapGet rest k

/-- Writing `m[k] = v`. -/
def mapSet : GoMap → String → GoVal → GoMap
  | [], k, v => [(k, v)]
  | (k', v') :: rest, k, v => if k' = k then (k, v) :: rest else (k', v') :: mapSet rest k v

/-- The type assertion `x.([]interface{})`. -/
def assertSlice : GoVal → Except Panic (List GoVal)
  | GoVal.slice xs => Except.ok xs
  | _ => Except.error Panic.typeAssertion

/-- The type assertion `x.(map[string]interface{})`. -/
def assertMap : GoVal → Except Panic GoMap
  | GoVal.map m => Except.ok m
  | _ => Except.error Panic.typeAssertion

/-- The comparison `x == nil` on an interface value. -/
def isNil : GoVal → Bool
  | GoVal.nil => true
  | _ => false

/-- The comparison `x == ""` of an interface value with the empty string constant: true
only when the dynamic type is `string` and the value is empty. -/
def isEmptyString : GoVal → Bool
  | GoVal.str s => decide (s = "")
  | _ => false

/-- Indexing `xs[i]` of a slice by a Go `int`. -/
def sliceIndex {α : Type} (xs : List α) (i : Int) : Except Panic α :=
  if i < 0 then Except.error Panic.indexOutOfRange
  else match xs[i.toNat]? with
    | some x => Except.ok x
    | none => Except.error Panic.indexOutOfRange

/-! ## Types of the packages `errors`, `messages` and `common` -/

/-- Modelled from the spec: the format constants of package `messages` that
`insert.go` and `invokeConnection.go` use for the errors they return; the package is
not among the sources, so each constant is kept as its name. `EMPTY_VAULT_ID` and
`EMPTY_VAULT_URL` stand for the two "missing vault URL/ID" conditions of the spec. -/
inductive Message where
  | RECORDS_KEY_NOT_FOUND
  | EMPTY_RECORDS
  | MISSING_TABLE
  | EMPTY_TABLE_NAME
  | FIELDS_KEY_ERROR
  | EMPTY_FIELDS
  | EMPTY_COLUMN_NAME
  | INVALID_RECORDS
  | UNKNOWN_ERROR
  | SERVER_ERROR
  | EMPTY_CONNECTION_URL
  | INVALID_CONNECTION_URL
  | INVALID_FIELD_IN_QUERY_PARAMS
  | EMPTY_VAULT_ID
  | EMPTY_VAULT_URL
  deriving DecidableEq, Repr

/-- The text `fmt.Sprintf(format, args...)`, kept as the format constant and its
arguments. -/
structure Text where
  format : Message
  args : List String
  deriving DecidableEq, Repr

/-- The call `fmt.Sprintf(format, args...)`. -/
def Sprintf (format : Message) (args : List String) : Text :=
  { format := format, args := args }

/-- Modelled from the spec: the error value of package `errors` (not among the
sources), a code and a message. -/
structure SkyflowError where
  code : String
  message : Text
  deriving DecidableEq, Repr

/-- Modelled from the spec: the constructor `errors.NewSkyflowError` (not among the
sources). -/
def NewSkyflowError (code : String) (message : Text) : SkyflowError :=
  { code := code, message := message }

/-- Modelled from the spec: `common.Configuration` (not among the sources), the vault
connection details. -/
structure Configuration where
  VaultID : String
  VaultURL : String
  deriving DecidableEq, Repr

/-- Modelled from the spec: `common.InsertOptions` (not among the sources). -/
structure InsertOptions where
  Tokens : Bool
  deriving DecidableEq, Repr

/-- Modelled from the spec: `common.SingleRecord` (not among the sources), a table name
and a fields mapping. -/
structure SingleRecord where
  Table : String
  Fields : GoMap

/-- Modelled from the spec: `common.InsertRecord` (not among the sources). -/
structure InsertRecord where
  Records : List SingleRecord

/-- What `insert.go` takes from code that is not among the sources: the constant
`errors.SdkErrorCode` and the function `isValidVaultDetails`. -/
structure Pkg where
  SdkErrorCode : String
  isValidVaultDetails : Configuration → Option SkyflowError

/-- The receiver type `InsertApi`. -/
structure InsertApi where
  Configuration : Configuration
  Records : GoMap
  Options : InsertOptions

/-- The package variable `insertTag`. -/
def insertTag : String := "Insert"

/-! ## doValidations -/

/-- The loop `for index := range field` of `doValidations`: the error of the first
empty key met, `nil` when there is none. -/
def doValidations.fieldLoop (pkg : Pkg) : GoMap → Option SkyflowError
  | [] => none
  | (index, _) :: rest =>
    if index = "" then
      some (NewSkyflowError pkg.SdkErrorCode (Sprintf Message.EMPTY_COLUMN_NAME [insertTag]))
    else doValidations.fieldLoop pkg rest

/-- The loop `for _, record := range recordsArray` of `doValidations`. -/
def doValidations.recordLoop (pkg : Pkg) : List GoVal → Except Panic (Option SkyflowError)
  | [] => Except.ok none
  | record :: rest => do
    let singleRecord ← assertMap record
    let table := mapGet singleRecord "table"
    let fields := mapGet singleRecord "fields"
    if isNil table then
      return some (NewSkyflowError pkg.SdkErrorCode (Sprintf Message.MISSING_TABLE [insertTag]))
    else if isEmptyString table then
      return some (NewSkyflowError pkg.SdkErrorCode (Sprintf Message.EMPTY_TABLE_NAME [insertTag]))
    else if isNil fields then
      return some (NewSkyflowError pkg.SdkErrorCode (Sprintf Message.FIELDS_KEY_ERROR [insertTag]))
    else if isEmptyString fields then
      return some (NewSkyflowError pkg.SdkErrorCode (Sprintf Message.EMPTY_FIELDS [insertTag]))
    else
      let field ← assertMap (mapGet singleRecord "fields")
      if field.length = 0 then
        return some (NewSkyflowError pkg.SdkErrorCode (Sprintf Message.EMPTY_FIELDS [insertTag]))
      else
        match doValidations.fieldLoop pkg field with
        | some err => return some err
        | none => doValidations.recordLoop pkg rest

/-- The method `(*InsertApi).doValidations`: `Except.ok none` is the return of `nil`,
`Except.ok (some e)` the return of the error `e`. -/
def doValidations (pkg : Pkg) (insertApi : InsertApi) : Except Panic (Option SkyflowError) :=
  match pkg.isValidVaultDetails insertApi.Configuration with
  | some err => Except.ok (some err)
  | none =>
    let totalRecords := mapGet insertApi.Records "records"
    if isNil totalRecords then
      Except.ok (some (NewSkyflowError pkg.SdkErrorCode
        (Sprintf Message.RECORDS_KEY_NOT_FOUND [insertTag])))
    else do
      let recordsArray ← assertSlice totalRecords
      if recordsArray.length = 0 then
        return some (NewSkyflowError pkg.SdkErrorCode (Sprintf Message.EMPTY_RECORDS [insertTag]))
      else
        doValidations.recordLoop pkg recordsArray

/-! ## constructRequestBody -/

/-- The back-reference `fmt.Sprintf("$responses.%v.records.0.skyflow_id", index)`. -/
def backReference (index : Nat) : String :=
  "$responses." ++ toString index ++ ".records.0.skyflow_id"

/-- The loop `for index, value := range records` of `constructRequestBody`, from
position `index` on, with the payload built so far. -/
def constructRequestBody.loop (options : InsertOptions) :
    Nat → List SingleRecord → List GoVal → List GoVal
  | _, [], postPayload => postPayload
  | index, value :: rest, postPayload =>
    let singleRecord := value
    let table := singleRecord.Table
    let fields := singleRecord.Fields
    let finalRecord : GoMap := []
    let finalRecord := mapSet finalRecord "tableName" (GoVal.str table)
    let finalRecord := mapSet finalRecord "fields" (GoVal.map fields)
    let finalRecord := mapSet finalRecord "method" (GoVal.str "POST")
    let finalRecord := mapSet finalRecord "quorum" (GoVal.bool true)
    let postPayload := postPayload ++ [GoVal.map finalRecord]
    if options.Tokens then
      let temp2 : GoMap := []
      let temp2 := mapSet temp2 "method" (GoVal.str "GET")
      let temp2 := mapSet temp2 "tableName" (GoVal.str table)
      let temp2 := mapSet temp2 "ID" (GoVal.str (backReference index))
      let temp2 := mapSet temp2 "tokenization" (GoVal.bool true)
      constructRequestBody.loop options (index + 1) rest (postPayload ++ [GoVal.map temp2])
    else
      constructRequestBody.loop options (index + 1) rest postPayload

/-- The method `(*InsertApi).constructRequestBody`: the body and the (always `nil`)
error. -/
def constructRequestBody (record : InsertRecord) (options : InsertOptions) :
    GoMap × Option SkyflowError :=
  let postPayload : List GoVal := []
  let records := record.Records
  let postPayload := constructRequestBody.loop options 0 records postPayload
  let body : GoMap := []
  let body := mapSet body "records" (GoVal.slice postPayload)
  (body, none)

/-! ## buildResponse -/

/-- One pass of the body of the loop of the tokens branch of `buildResponse`, at
index `i`. -/
def buildResponse.tokensBody (responseJson : List GoVal) (inputRecords : List SingleRecord)
    (recordsArray : List GoVal) (i : Nat) : Except Panic (List GoVal) := do
  let len : Int := responseJson.length
  let skyflowIDsObject ← sliceIndex responseJson ((i : Int) - (len - len / 2)) >>= assertMap
  let skyflowIDs ← assertSlice (mapGet skyflowIDsObject "records")
  let skyflowID := mapGet (← sliceIndex skyflowIDs 0 >>= assertMap) "skyflow_id"
  let record ← sliceIndex responseJson i >>= assertMap
  let inputRecord ← sliceIndex inputRecords ((i : Int) - len / 2)
  let record := mapSet record "table" (GoVal.str inputRecord.Table)
  let fields ← assertMap (mapGet record "fields")
  let fields := mapSet fields "skyflow_id" skyflowID
  let record := mapSet record "fields" (GoVal.map fields)
  return recordsArray ++ [GoVal.map record]

/-- One pass of the body of the loop of the branch without tokens of `buildResponse`,
at index `i`. -/
def buildResponse.plainBody (responseJson : List GoVal) (inputRecords : List SingleRecord)
    (recordsArray : List GoVal) (i : Nat) : Except Panic (List GoVal) := do
  let inputRecord ← sliceIndex inputRecords i
  let record ← sliceIndex responseJson i >>= assertMap >>= fun m => assertSlice (mapGet m "records")
  let first ← sliceIndex record 0 >>= assertMap
  let first := mapSet first "table" (GoVal.str inputRecord.Table)
  return recordsArray ++ [GoVal.map first]

/-- A counting loop `for i := lo; i < lo + n; i++` whose body may panic. -/
def forLoop (body : List GoVal → Nat → Except Panic (List GoVal)) :
    Nat → Nat → List GoVal → Except Panic (List GoVal)
  | _, 0, acc => Except.ok acc
  | lo, n + 1, acc =>
    match body acc lo with
    | Except.ok acc' => forLoop body (lo + 1) n acc'
    | Except.error p => Except.error p

/-- The method `(*InsertApi).buildResponse`. -/
def buildResponse (insertApi : InsertApi) (responseJson : List GoVal)
    (requestRecords : InsertRecord) : Except Panic GoMap := do
  let inputRecords := requestRecords.Records
  let recordsArray : List GoVal := []
  let responseObject : GoMap := []
  let recordsArray ←
    if insertApi.Options.Tokens then
      forLoop (buildResponse.tokensBody responseJson inputRecords)
        (responseJson.length / 2) (responseJson.length - responseJson.length / 2) recordsArray
    else
      forLoop (buildResponse.plainBody responseJson inputRecords)
        0 responseJson.length recordsArray
  let responseObject := mapSet responseObject "records" (GoVal.slice recordsArray)
  return responseObject

/-! ## Concrete data used by the examples -/

/-- The record `{table: "person", fields: {name: "A"}}`. -/
def recA : SingleRecord := { Table := "person", Fields := [("name", GoVal.str "A")] }

/-- The record `{table: "person", fields: {name: "B"}}`. -/
def recB : SingleRecord := { Table := "person", Fields := [("name", GoVal.str "B")] }

/-- A package instance for the examples: code `"400"`, every configuration accepted. -/
def samplePkg : Pkg := { SdkErrorCode := "400", isValidVaultDetails := fun _ => none }

/-- An `InsertApi` receiver for the examples with the given raw input and tokens flag. -/
def sampleApi (records : GoMap) (tokens : Bool) : InsertApi :=
  { Configuration := { VaultID := "vault", VaultURL := "https://vault.example" },
    Records := records, Options := { Tokens := tokens } }

/-- The vault's result entry for a POST insert: `{records: [{skyflow_id: id}]}`. -/
def insertResult (id : String) : GoVal :=
  GoVal.map [("records", GoVal.slice [GoVal.map [("skyflow_id", GoVal.str id)]])]

/-- The vault's result entry for a GET read-back: `{fields: f}`. -/
def readBackResult (f : GoMap) : GoVal :=
  GoVal.map [("fields", GoVal.map f)]

/-- A response entry that echoes a POST: `{records: [{fields: f}]}`. -/
def postEcho (f : GoMap) : GoVal :=
  GoVal.map [("records", GoVal.slice [GoVal.map [("fields", GoVal.map f)]])]

/-- A well-formed raw record: a map whose `table` is a non-empty string and whose
`fields` is a non-empty map with only non-empty keys. -/
def WellFormedRecord (record : GoVal) : Prop :=
  ∃ (m : GoMap) (t : String) (f : GoMap), record = GoVal.map m ∧
    mapGet m "table" = GoVal.str t ∧ t ≠ "" ∧
    mapGet m "fields" = GoVal.map f ∧ f ≠ [] ∧ ∀ kv ∈ f, kv.1 ≠ ""

/-- The validation error `doValidations` builds from a message constant. -/
def validationError (pkg : Pkg) (format : Message) : SkyflowError :=
  NewSkyflowError pkg.SdkErrorCode (Sprintf format [insertTag])

/-- The raw record `{table: "person", fields: {name: "A"}}`. -/
def rawA : GoVal :=
  GoVal.map [("table", GoVal.str "person"), ("fields", GoVal.map [("name", GoVal.str "A")])]

/-- The raw input `{records: [rawA, bad]}`: the record `bad` after one well-formed
record. -/
def inputWith (bad : GoMap) : InsertApi :=
  sampleApi [("records", GoVal.slice [rawA, GoVal.map bad])] false

/-- The POST operation `constructRequestBody` emits for a record. -/
def postOp (r : SingleRecord) : GoVal :=
  GoVal.map [("tableName", GoVal.str r.Table), ("fields", GoVal.map r.Fields),
    ("method", GoVal.str "POST"), ("quorum", GoVal.bool true)]

/-- The GET operation `constructRequestBody` emits for a record met at loop index
`index`. -/
def getOp (index : Nat) (r : SingleRecord) : GoVal :=
  GoVal.map [("method", GoVal.str "GET"), ("tableName", GoVal.str r.Table),
    ("ID", GoVal.str (backReference index)), ("tokenization", GoVal.bool true)]

/-- The `method` entry of an operation of the payload (`nil` for a value that is not a
map). -/
def methodOf : GoVal → GoVal
  | GoVal.map m => mapGet m "method"
  | _ => GoVal.nil

/-! ## Definitions for the order of the validation checks -/

/-- The check of one record in the order the specification documents: table present,
table non-empty, fields present, fields a non-empty mapping, every field name
non-empty; the message constant of the first check that fails, if any. -/
def documentedRecordCheck (m : GoMap) : Option Message :=
  if isNil (mapGet m "table") then some Message.MISSING_TABLE
  else if isEmptyString (mapGet m "table") then some Message.EMPTY_TABLE_NAME
  else match mapGet m "fields" with
    | GoVal.nil => some Message.FIELDS_KEY_ERROR
    | GoVal.map f =>
      if f.isEmpty then some Message.EMPTY_FIELDS
      else if f.any (fun kv => decide (kv.1 = "")) then some Message.EMPTY_COLUMN_NAME
      else none
    | _ => none

/-- Modelled from the spec: a package instance whose `isValidVaultDetails` does what
the specification says of the function (not among the sources): "Vault connection
details present (non-empty vault URL, vault identifier)". -/
def strictPkg : Pkg :=
  { SdkErrorCode := "400",
    isValidVaultDetails := fun configuration =>
      if configuration.VaultID = "" then
        some (NewSkyflowError "400" (Sprintf Message.EMPTY_VAULT_ID [insertTag]))
      else if configuration.VaultURL = "" then
        some (NewSkyflowError "400" (Sprintf Message.EMPTY_VAULT_URL [insertTag]))
      else none }

/-- A raw fields value on which `doValidations` performs no failing type assertion:
absent, the empty string, or a mapping. -/
def FieldsShape (fields : GoVal) : Prop :=
  fields = GoVal.nil ∨ fields = GoVal.str "" ∨ ∃ f, fields = GoVal.map f

/-- An `InsertApi` receiver without vault details (empty vault identifier and URL). -/
def noVaultApi (records : GoMap) : InsertApi :=
  { Configuration := { VaultID := "", VaultURL := "" },
    Records := records, Options := { Tokens := false } }

/-! ## The index expressions of the tokens branch of buildResponse -/

/-- The index `i-(len(responseJson)-len(responseJson)/2)` at which the tokens branch of
`buildResponse` reads the identifiers entry, as a function of the length and of `i`. -/
def buildResponse.idsIndex (len i : Int) : Int := i - (len - len / 2)

/-- The index `i-len(responseJson)/2` at which the tokens branch of `buildResponse`
reads the input record, as a function of the length and of `i`. -/
def buildResponse.inputIndex (len i : Int) : Int := i - len / 2

/-- An index into a slice of length `n` that Go accepts. -/
def InRange (n : Nat) (k : Int) : Prop := 0 ≤ k ∧ k < (n : Int)

/-! ## Shapes of response entries -/

/-- A response entry that holds a non-empty `records` sequence whose first element is an
object. -/
def HasFirstRecord (entry : GoVal) : Prop :=
  ∃ m first rest, entry = GoVal.map m ∧
    mapGet m "records" = GoVal.slice (GoVal.map first :: rest)

/-- A response entry that is an object holding a `fields` mapping. -/
def HasFields (entry : GoVal) : Prop :=
  ∃ g fl, entry = GoVal.map g ∧ mapGet g "fields" = GoVal.map fl

/-! ## InsertApi.Post -/

/-- An HTTP request as `Post` hands it to the transport: method, URL, body, header
entries and query entries. -/
structure Request where
  method : String
  url : String
  body : String
  header : List (String × String)
  query : List (String × String)
  deriving DecidableEq, Repr

/-- Modelled from the spec: the part of `*http.Response` that `Post` reads, the status
code and the bytes `ioutil.ReadAll` takes from the body. -/
structure Response where
  StatusCode : Int
  Body : String
  deriving DecidableEq, Repr

/-- What the two `Post` methods take from the Go libraries, from the transport and from
code that is not among the sources.

* `toInsertRecord`: `json.Marshal(insertApi.Records)` followed by `json.Unmarshal` into
  `common.InsertRecord`; `none` when `Unmarshal` reports an error.
* `Marshal`: `json.Marshal` of a request body, the bytes or the text of the error.
* `NewRequest`: `http.NewRequest(method, url, body)`; `none` is the nil request that
  goes with an error (the error itself is discarded by the callers).
* `ClientDo`: `Client.Do`, the pair `(res, err)`.
* `DefaultClientDo`: `http.DefaultClient.Do`, the pair `(res, err)`.
* `Unmarshal`: `json.Unmarshal(data, &result)` into a `map[string]interface{}`; `none`
  when it reports an error.
* `format`: the text `fmt` prints for a value under `%v`.
* `formatFloat`: the text `fmt.Sprintf("%f", v)` of the float64 with the given bits.
* `isValidUrl`: the function of that name (not among the sources).
* `CanonicalHeaderKey`: the canonical form `Header.Set` gives to a key. -/
structure Env where
  toInsertRecord : GoMap → Option InsertRecord
  Marshal : GoMap → Except String String
  NewRequest : String → String → String → Option Request
  ClientDo : Request → Option Response × Option String
  DefaultClientDo : Request → Option Response × Option String
  Unmarshal : String → Option GoMap
  format : GoVal → String
  formatFloat : Nat → String
  isValidUrl : String → Bool
  CanonicalHeaderKey : String → String

/-- The method `(*InsertApi).Post`: the returned pair of result and error, or a
panic. -/
def InsertApi.Post (pkg : Pkg) (env : Env) (insertApi : InsertApi) (token : String) :
    Except Panic (Option GoMap × Option SkyflowError) :=
  match doValidations pkg insertApi with
  | Except.error p => Except.error p
  | Except.ok (some err) => Except.ok (none, some err)
  | Except.ok none =>
    match env.toInsertRecord insertApi.Records with
    | none =>
      Except.ok (none, some (NewSkyflowError pkg.SdkErrorCode
        (Sprintf Message.INVALID_RECORDS [insertTag])))
    | some insertRecord =>
      match constructRequestBody insertRecord insertApi.Options with
      | (_, some err) => Except.ok (none, some err)
      | (record, none) =>
        match env.Marshal record with
        | Except.error err1 =>
          Except.ok (none, some (NewSkyflowError pkg.SdkErrorCode
            (Sprintf Message.UNKNOWN_ERROR [insertTag, err1])))
        | Except.ok requestBody =>
          let requestUrl :=
            insertApi.Configuration.VaultURL ++ "/v1/vaults/" ++ insertApi.Configuration.VaultID
          match env.NewRequest "POST" requestUrl requestBody with
          | none => Except.error Panic.nilDereference
          | some request =>
            let bearerToken := "Bearer " ++ token
            let request :=
              { request with header := request.header ++ [("Authorization", bearerToken)] }
            match env.ClientDo request with
            | (none, some _) => Except.error Panic.nilDereference
            | (some res, some err2) =>
              Except.ok (none, some (NewSkyflowError (toString res.StatusCode)
                (Sprintf Message.SERVER_ERROR [insertTag, err2])))
            | (none, none) => Except.error Panic.nilDereference
            | (some res, none) =>
              let data := res.Body
              match env.Unmarshal data with
              | none =>
                Except.ok (none, some (NewSkyflowError pkg.SdkErrorCode
                  (Sprintf Message.UNKNOWN_ERROR [insertTag, data])))
              | some result =>
                if !isNil (mapGet result "error") then
                  match assertMap (mapGet result "error") with
                  | Except.error p => Except.error p
                  | Except.ok generatedError =>
                    Except.ok (none, some (NewSkyflowError
                      (env.format (mapGet generatedError "http_code"))
                      (Sprintf Message.SERVER_ERROR
                        [insertTag, env.format (mapGet generatedError "message")])))
                else
                  match assertSlice (mapGet result "responses") with
                  | Except.error p => Except.error p
                  | Except.ok responses =>
                    match buildResponse insertApi responses insertRecord with
                    | Except.error p => Except.error p
                    | Except.ok response => Except.ok (some response, none)

/-! ## An environment for the examples -/

/-- For the examples: a record whose table is a string and whose fields is a mapping,
as `common.SingleRecord`. -/
def sampleDecodeRecord : GoVal → Option SingleRecord
  | GoVal.map m =>
    match mapGet m "table", mapGet m "fields" with
    | GoVal.str t, GoVal.map f => some { Table := t, Fields := f }
    | _, _ => none
  | _ => none

/-- For the examples: the raw input as `common.InsertRecord`, for records of the shape
`sampleDecodeRecord` handles. -/
def sampleDecode (records : GoMap) : Option InsertRecord :=
  match mapGet records "records" with
  | GoVal.slice xs => (xs.mapM sampleDecodeRecord).map InsertRecord.mk
  | _ => none

/-- For the examples: what `%v` prints for nil, a string, an integral number and a
bool (composite values do not occur in the examples). -/
def sampleFormat : GoVal → String
  | GoVal.nil => "<nil>"
  | GoVal.str s => s
  | GoVal.num n => toString n
  | GoVal.bool b => toString b
  | _ => ""

/-- For the examples: an environment whose transport answers every request with `reply`
and whose JSON decoder reads every body as `parsed`. -/
def sampleEnv (reply : Option Response × Option String) (parsed : Option GoMap) : Env :=
  { toInsertRecord := sampleDecode,
    Marshal := fun _ => Except.ok "payload",
    NewRequest := fun method url body =>
      some { method := method, url := url, body := body, header := [], query := [] },
    ClientDo := fun _ => reply,
    DefaultClientDo := fun _ => reply,
    Unmarshal := fun _ => parsed,
    format := sampleFormat,
    formatFloat := fun _ => "0.000000",
    isValidUrl := fun _ => true,
    CanonicalHeaderKey := fun key => key }

/-- The raw input `{records: [rawA]}` with vault details, tokens disabled. -/
def oneRecordApi : InsertApi := sampleApi [("records", GoVal.slice [rawA])] false

/-! ## InvokeConnectionApi (invokeConnection.go)

A Go string is taken as its sequence of characters. The two maps the method ranges over
(`PathParams`, `QueryParams`) are given as the list of their entries in the order the
`range` loop visits them, which Go leaves unspecified. -/

/-- The value of a query parameter (static type `interface{}`), by its dynamic type:
`int`, `float64` (by its bits), `string`, `bool`, a further numeric type (`int64`,
`uint8`, `float32`, ...) or any other type. -/
inductive QueryVal where
  | int (v : Int)
  | float64 (bits : Nat)
  | string (s : String)
  | bool (b : Bool)
  | numeric (typ : String)
  | other (typ : String)
  deriving DecidableEq, Repr

/-- Modelled from the spec: `common.ConnectionConfig` (not among the sources);
`MethodName` is the text `MethodName.String()` gives. -/
structure ConnectionConfig where
  ConnectionURL : String
  MethodName : String
  PathParams : List (String × String)
  QueryParams : List (String × QueryVal)
  RequestBody : GoMap
  RequestHeader : List (String × String)

/-- The receiver type `InvokeConnectionApi`. -/
structure InvokeConnectionApi where
  ConnectionConfig : ConnectionConfig
  Token : String

/-- The package variable `connectionTag`. -/
def connectionTag : String := "InvokeConnection"

/-- The method `(*InvokeConnectionApi).doValidations`. -/
def InvokeConnectionApi.doValidations (pkg : Pkg) (env : Env) (api : InvokeConnectionApi) :
    Option SkyflowError :=
  if api.ConnectionConfig.ConnectionURL = "" then
    some (NewSkyflowError pkg.SdkErrorCode (Sprintf Message.EMPTY_CONNECTION_URL [connectionTag]))
  else if !env.isValidUrl api.ConnectionConfig.ConnectionURL then
    some (NewSkyflowError pkg.SdkErrorCode
      (Sprintf Message.INVALID_CONNECTION_URL
        [connectionTag, api.ConnectionConfig.ConnectionURL]))
  else none

/-- The scan of `strings.Replace(s, old, new, -1)` for a non-empty `old`: `skip` counts
the characters of a matched occurrence still to pass over. -/
def replaceAll.go (old new : List Char) : Nat → List Char → List Char
  | _, [] => []
  | skip + 1, _ :: cs => replaceAll.go old new skip cs
  | 0, c :: cs =>
    if old.isPrefixOf (c :: cs) then new ++ replaceAll.go old new (old.length - 1) cs
    else c :: replaceAll.go old new 0 cs

/-- The call `strings.Replace(s, old, new, -1)` for a non-empty `old`: every
non-overlapping occurrence of `old`, taken from the left, becomes `new`. -/
def replaceAll (old new s : List Char) : List Char := replaceAll.go old new 0 s

/-- The text `fmt.Sprintf` gives for the braces format with the name `index`: an
opening brace, the name, a closing brace. -/
def placeholder (index : String) : List Char := '{' :: (index.toList ++ ['}'])

/-- The loop `for index, value := range PathParams` of `Post`, on the parameters in
visiting order. -/
def pathLoop : List (String × String) → List Char → List Char
  | [], requestUrl => requestUrl
  | (index, value) :: rest, requestUrl =>
    pathLoop rest (replaceAll (placeholder index) value.toList requestUrl)

/-- Writing `values.Set(key, value)` or `header.Set(key, value)` on a list of
entries. -/
def setEntry : List (String × String) → String → String → List (String × String)
  | [], k, v => [(k, v)]
  | (k', v') :: rest, k, v =>
    if k' = k then (k, v) :: rest else (k', v') :: setEntry rest k v

/-- The loop `for index, value := range QueryParams` of `Post` with its type switch:
the query after all `Set` calls, or the error of the first value of an unsupported
type. -/
def queryLoop (pkg : Pkg) (env : Env) :
    List (String × QueryVal) → List (String × String) →
      Except SkyflowError (List (String × String))
  | [], query => Except.ok query
  | (index, value) :: rest, query =>
    match value with
    | QueryVal.int v => queryLoop pkg env rest (setEntry query index (toString v))
    | QueryVal.float64 v => queryLoop pkg env rest (setEntry query index (env.formatFloat v))
    | QueryVal.string v => queryLoop pkg env rest (setEntry query index v)
    | QueryVal.bool v => queryLoop pkg env rest (setEntry query index (toString v))
    | _ =>
      Except.error (NewSkyflowError pkg.SdkErrorCode
        (Sprintf Message.INVALID_FIELD_IN_QUERY_PARAMS [connectionTag, index]))

/-- The loop `for index, value := range RequestHeader` of `Post`. -/
def headerLoop (env : Env) : List (String × String) → List (String × String) →
    List (String × String)
  | [], header => header
  | (index, value) :: rest, header =>
    headerLoop env rest (setEntry header (env.CanonicalHeaderKey index) value)

/-- What a call of `InvokeConnectionApi.Post` does and returns: the requests handed to
`http.DefaultClient.Do`, the result and the error. -/
structure Outcome where
  sent : List Request
  result : Option GoMap
  err : Option SkyflowError

/-- The method `(*InvokeConnectionApi).Post`. -/
def InvokeConnectionApi.Post (pkg : Pkg) (env : Env) (api : InvokeConnectionApi) :
    Except Panic Outcome :=
  match InvokeConnectionApi.doValidations pkg env api with
  | some validationError =>
    Except.ok { sent := [], result := none, err := some validationError }
  | none =>
    let requestUrl :=
      String.mk (pathLoop api.ConnectionConfig.PathParams api.ConnectionConfig.ConnectionURL.toList)
    match env.Marshal api.ConnectionConfig.RequestBody with
    | Except.error err =>
      Except.ok
        { sent := []
          result := none
          err := some (NewSkyflowError pkg.SdkErrorCode
            (Sprintf Message.UNKNOWN_ERROR [connectionTag, err])) }
    | Except.ok requestBody =>
      match env.NewRequest api.ConnectionConfig.MethodName requestUrl requestBody with
      | none => Except.error Panic.nilDereference
      | some request =>
        match queryLoop pkg env api.ConnectionConfig.QueryParams request.query with
        | Except.error queryError =>
          Except.ok { sent := [], result := none, err := some queryError }
        | Except.ok query =>
          let request := { request with query := query }
          let header := setEntry request.header
            (env.CanonicalHeaderKey "X-Skyflow-Authorization") api.Token
          let header := setEntry header (env.CanonicalHeaderKey "Content-Type") "application/json"
          let header := headerLoop env api.ConnectionConfig.RequestHeader header
          let request := { request with header := header }
          match env.DefaultClientDo request with
          | (_, some err) =>
            Except.ok
              { sent := [request]
                result := none
                err := some (NewSkyflowError pkg.SdkErrorCode
                  (Sprintf Message.SERVER_ERROR [connectionTag, err])) }
          | (none, none) => Except.error Panic.nilDereference
          | (some res, none) =>
            let data := res.Body
            match env.Unmarshal data with
            | none =>
              Except.ok
                { sent := [request]
                  result := none
                  err := some (NewSkyflowError pkg.SdkErrorCode
                    (Sprintf Message.UNKNOWN_ERROR [connectionTag, data])) }
            | some result => Except.ok { sent := [request], result := some result, err := none }

/-- A query parameter value of one of the types the type switch of `Post` has a case
for: `int`, `float64`, `string`, `bool`. -/
def isSupported : QueryVal → Bool
  | QueryVal.int _ => true
  | QueryVal.float64 _ => true
  | QueryVal.string _ => true
  | QueryVal.bool _ => true
  | _ => false

/-- A query parameter value that is a string, a number (of any numeric type) or a
bool. -/
def isStringNumberOrBool : QueryVal → Bool
  | QueryVal.other _ => false
  | _ => true

/-- A connection configuration for the examples, with the given path and query
parameters. -/
def sampleConnection (url : String) (pathParams : List (String × String))
    (queryParams : List (String × QueryVal)) : InvokeConnectionApi :=
  { ConnectionConfig :=
      { ConnectionURL := url
        MethodName := "POST"
        PathParams := pathParams
        QueryParams := queryParams
        RequestBody := []
        RequestHeader := [] }
    Token := "token" }

/-! ## Simultaneous replacement of placeholders -/

/-- The first parameter, in list order, whose placeholder the text starts with. -/
def findParam (params : List (String × String)) (s : List Char) : Option (String × String) :=
  params.find? (fun p => (placeholder p.1).isPrefixOf s)

/-- The scan of the simultaneous replacement: `skip` counts the characters of a replaced
placeholder still to pass over. -/
def substituteAll.go (params : List (String × String)) : Nat → List Char → List Char
  | _, [] => []
  | skip + 1, _ :: cs => substituteAll.go params skip cs
  | 0, c :: cs =>
    match findParam params (c :: cs) with
    | some p => p.2.toList ++ substituteAll.go params ((placeholder p.1).length - 1) cs
    | none => c :: substituteAll.go params 0 cs

/-- The simultaneous replacement of every placeholder of the template: reading the
template once from the left, every placeholder of a parameter becomes the parameter's
value; replaced text is not read again. -/
def substituteAll (params : List (String × String)) (s : List Char) : List Char :=
  substituteAll.go params 0 s

/-- A text without an opening and without a closing brace. -/
def BraceFree (s : List Char) : Prop := '{' ∉ s ∧ '}' ∉ s

/-- A template without nested braces: no opening brace stands between an opening brace
and the next closing brace. -/
def NoNested (url : List Char) : Prop :=
  ∀ pre mid post, url = pre ++ '{' :: (mid ++ '}' :: post) → '}' ∉ mid → '{' ∉ mid

/-- Whether an opening brace stands before the first closing brace of the text. -/
def opensBeforeClose : List Char → Bool
  | [] => false
  | c :: cs =>
    if c = '}' then false else if c = '{' then cs.contains '}' else opensBeforeClose cs

/-- A decision procedure for `NoNested`. -/
def noNestedCheck : List Char → Bool
  | [] => true
  | c :: cs => (if c = '{' then !opensBeforeClose cs else true) && noNestedCheck cs

/-! ## Lemmas on maps and slices -/

theorem mapGet_mapSet_same (m : GoMap) (k : String) (v : GoVal) :
    mapGet (mapSet m k v) k = v := by
  induction m with
  | nil => simp [mapSet, mapGet]
  | cons kv rest ih =>
    obtain ⟨k', v'⟩ := kv
    by_cases h : k' = k
    · simp [mapSet, mapGet, h]
    · simp [mapSet, mapGet, h, ih]

theorem mapGet_mapSet_other (m : GoMap) (k k' : String) (v : GoVal) (h : k ≠ k') :
    mapGet (mapSet m k v) k' = mapGet m k' := by
  induction m with
  | nil => simp [mapSet, mapGet, h]
  | cons kv rest ih =>
    obtain ⟨k0, v0⟩ := kv
    by_cases h0 : k0 = k
    · subst h0
      simp [mapSet, mapGet, h]
    · by_cases h1 : k0 = k'
      · subst h1
        simp [mapSet, mapGet, h0]
      · simp [mapSet, mapGet, h0, h1, ih]

theorem mapGet_absent (m : GoMap) (k : String) (h : ∀ kv ∈ m, kv.1 ≠ k) :
    mapGet m k = GoVal.nil := by
  induction m with
  | nil => rfl
  | cons kv rest ih =>
    obtain ⟨k0, v0⟩ := kv
    have h0 : k0 ≠ k := h (k0, v0) (List.mem_cons_self _ _)
    simp only [mapGet, h0, if_false]
    exact ih (fun kv hkv => h kv (List.mem_cons_of_mem _ hkv))

theorem sliceIndex_natCast {α : Type} (xs : List α) (n : Nat) (x : α)
    (h : xs[n]? = some x) : sliceIndex xs (n : Int) = Except.ok x := by
  have h0 : ¬ ((n : Int) < 0) := by omega
  simp [sliceIndex, h0, h]

/-! ## Lemmas on the loops -/

theorem constructRequestBody_loop_eq (options : InsertOptions) :
    ∀ (records : List SingleRecord) (index : Nat) (postPayload : List GoVal),
      constructRequestBody.loop options index records postPayload =
        postPayload ++ (List.map
          (fun p : Nat × SingleRecord =>
            if options.Tokens then [postOp p.2, getOp p.1 p.2] else [postOp p.2])
          (List.enumFrom index records)).flatten := by
  intro records
  induction records with
  | nil => intro index postPayload; simp [constructRequestBody.loop]
  | cons value rest ih =>
    intro index postPayload
    cases hT : options.Tokens
    · rw [constructRequestBody.loop]
      simp only [hT, Bool.false_eq_true, if_false]
      rw [ih]
      simp [hT, postOp, mapSet]
    · rw [constructRequestBody.loop]
      simp only [hT, if_true]
      rw [ih]
      simp [hT, postOp, getOp, mapSet]

theorem constructRequestBody_body (record : InsertRecord) (options : InsertOptions) :
    (constructRequestBody record options).1 =
      [("records", GoVal.slice (constructRequestBody.loop options 0 record.Records []))] := rfl

theorem forLoop_spec (body : List GoVal → Nat → Except Panic (List GoVal))
    (P : Nat → GoVal → Prop) :
    ∀ (n lo : Nat) (acc : List GoVal),
      (∀ j, j < n → ∀ acc', ∃ v, body acc' (lo + j) = Except.ok (acc' ++ [v]) ∧ P (lo + j) v) →
      ∃ out, forLoop body lo n acc = Except.ok (acc ++ out) ∧ out.length = n ∧
        ∀ j, j < n → ∃ v, out[j]? = some v ∧ P (lo + j) v := by
  intro n
  induction n with
  | zero =>
    intro lo acc _
    exact ⟨[], by simp [forLoop], rfl, fun j hj => absurd hj (Nat.not_lt_zero j)⟩
  | succ n ih =>
    intro lo acc h
    obtain ⟨v0, hv0, hP0⟩ := h 0 (Nat.succ_pos n) acc
    have hstep : ∀ j, j < n → ∀ acc', ∃ v,
        body acc' (lo + 1 + j) = Except.ok (acc' ++ [v]) ∧ P (lo + 1 + j) v := by
      intro j hj acc'
      have := h (j + 1) (Nat.succ_lt_succ hj) acc'
      have e : lo + (j + 1) = lo + 1 + j := by omega
      rw [e] at this
      exact this
    obtain ⟨out, hout, hlen, hall⟩ := ih (lo + 1) (acc ++ [v0]) hstep
    refine ⟨v0 :: out, ?_, by simp [hlen], ?_⟩
    · rw [forLoop]
      rw [Nat.add_zero] at hv0
      rw [hv0]
      simp only
      rw [hout]
      simp
    · intro j hj
      cases j with
      | zero => exact ⟨v0, by simp, hP0⟩
      | succ j =>
        obtain ⟨v, hv, hP⟩ := hall j (Nat.lt_of_succ_lt_succ hj)
        have e : lo + (j + 1) = lo + 1 + j := by omega
        rw [e]
        exact ⟨v, by simpa using hv, hP⟩

theorem constructRequestBody_loop_plain (options : InsertOptions) (h : options.Tokens = false)
    (records : List SingleRecord) (index : Nat) (postPayload : List GoVal) :
    constructRequestBody.loop options index records postPayload =
      postPayload ++ records.map postOp := by
  rw [constructRequestBody_loop_eq]
  congr 1
  induction records generalizing index with
  | nil => simp
  | cons value rest ih =>
    simp only [List.enumFrom_cons, List.map_cons, List.flatten_cons, h, Bool.false_eq_true,
      if_false, List.singleton_append]
    have := ih (index + 1)
    simp only [h, Bool.false_eq_true, if_false] at this
    rw [this]

theorem constructRequestBody_loop_length (options : InsertOptions)
    (records : List SingleRecord) (index : Nat) (postPayload : List GoVal) :
    (constructRequestBody.loop options index records postPayload).length =
      postPayload.length + (if options.Tokens then 2 * records.length else records.length) := by
  induction records generalizing index postPayload with
  | nil => simp [constructRequestBody.loop]
  | cons value rest ih =>
    rw [constructRequestBody.loop]
    cases hT : options.Tokens
    · simp only [Bool.false_eq_true, if_false]
      rw [ih]
      simp [hT]
      omega
    · simp only [if_true]
      rw [ih]
      simp [hT]
      omega

/-! ## Request construction: claims C1, C2, C6, C7 -/

/-- C1 (evaluation of the code where the claim fails): with tokens enabled and the two
records A and B, `constructRequestBody` emits POST A, GET A, POST B, GET B; the
operation at position 1 is a GET and the one at position 2 a POST, so the first two
operations are not the two POST inserts and the last two are not the two GET
read-backs. -/
theorem constructRequestBody_tokens_interleaved :
    ∃ payload, mapGet (constructRequestBody { Records := [recA, recB] } { Tokens := true }).1
        "records" = GoVal.slice payload ∧
      payload = [postOp recA, getOp 0 recA, postOp recB, getOp 1 recB] ∧
      payload.map methodOf =
        [GoVal.str "POST", GoVal.str "GET", GoVal.str "POST", GoVal.str "GET"] :=
  ⟨_, rfl, rfl, rfl⟩

/-- C2 (evaluation of the code where the claim fails): with tokens enabled and the two
records A and B, the POST insert of record 1 stands at payload position 2, yet the GET
read-back of record 1 (position 3) carries `$responses.1.records.0.skyflow_id`, and
position 1 holds the GET read-back of record 0. -/
theorem constructRequestBody_backReference_off :
    ∃ payload, mapGet (constructRequestBody { Records := [recA, recB] } { Tokens := true }).1
        "records" = GoVal.slice payload ∧
      payload[2]? = some (GoVal.map [("tableName", GoVal.str "person"),
        ("fields", GoVal.map [("name", GoVal.str "B")]), ("method", GoVal.str "POST"),
        ("quorum", GoVal.bool true)]) ∧
      payload[3]? = some (GoVal.map [("method", GoVal.str "GET"),
        ("tableName", GoVal.str "person"),
        ("ID", GoVal.str "$responses.1.records.0.skyflow_id"),
        ("tokenization", GoVal.bool true)]) ∧
      payload[1]? = some (GoVal.map [("method", GoVal.str "GET"),
        ("tableName", GoVal.str "person"),
        ("ID", GoVal.str "$responses.0.records.0.skyflow_id"),
        ("tokenization", GoVal.bool true)]) :=
  ⟨_, rfl, rfl, rfl, rfl⟩

/-- C6: for every list of N input records, the payload that `constructRequestBody`
stores under `records` has exactly N operations when tokens are disabled and exactly
2N operations when tokens are enabled (and the returned error is `nil`). -/
theorem constructRequestBody_length (record : InsertRecord) (options : InsertOptions) :
    ∃ payload, mapGet (constructRequestBody record options).1 "records" = GoVal.slice payload ∧
      (constructRequestBody record options).2 = none ∧
      payload.length =
        if options.Tokens then 2 * record.Records.length else record.Records.length := by
  refine ⟨constructRequestBody.loop options 0 record.Records [], rfl, rfl, ?_⟩
  rw [constructRequestBody_loop_length]
  simp

/-- C7: with tokens disabled, for every list of N input records and every i < N, the
i-th operation of the payload has method POST, tableName equal to record i's table,
fields equal to record i's fields and quorum true; no operation of the payload has
method GET. -/
theorem constructRequestBody_plain_posts (record : InsertRecord) (options : InsertOptions)
    (hTokens : options.Tokens = false) :
    ∃ payload, mapGet (constructRequestBody record options).1 "records" = GoVal.slice payload ∧
      (∀ (i : Nat) (hi : i < record.Records.length), ∃ op,
        payload[i]? = some (GoVal.map op) ∧
        mapGet op "method" = GoVal.str "POST" ∧
        mapGet op "tableName" = GoVal.str (record.Records[i]).Table ∧
        mapGet op "fields" = GoVal.map (record.Records[i]).Fields ∧
        mapGet op "quorum" = GoVal.bool true) ∧
      ∀ v ∈ payload, methodOf v ≠ GoVal.str "GET" := by
  refine ⟨constructRequestBody.loop options 0 record.Records [], rfl, ?_, ?_⟩
  · intro i hi
    rw [constructRequestBody_loop_plain options hTokens]
    refine ⟨[("tableName", GoVal.str (record.Records[i]).Table),
      ("fields", GoVal.map (record.Records[i]).Fields),
      ("method", GoVal.str "POST"), ("quorum", GoVal.bool true)], ?_, rfl, rfl, rfl, rfl⟩
    simp [List.getElem?_map, List.getElem?_eq_getElem hi, postOp]
  · intro v hv
    rw [constructRequestBody_loop_plain options hTokens] at hv
    simp only [List.nil_append, List.mem_map] at hv
    obtain ⟨r, _, rfl⟩ := hv
    intro h
    have hm : GoVal.str "POST" = GoVal.str "GET" := h
    injection hm with hs
    exact absurd hs (by decide)

/-- C7, at the records A and B with tokens disabled. -/
theorem constructRequestBody_plain_posts_witness :
    ({ Tokens := false } : InsertOptions).Tokens = false ∧
    ∃ payload, mapGet (constructRequestBody { Records := [recA, recB] } { Tokens := false }).1
        "records" = GoVal.slice payload ∧
      (∀ (i : Nat) (hi : i < [recA, recB].length), ∃ op,
        payload[i]? = some (GoVal.map op) ∧
        mapGet op "method" = GoVal.str "POST" ∧
        mapGet op "tableName" = GoVal.str ([recA, recB][i]).Table ∧
        mapGet op "fields" = GoVal.map ([recA, recB][i]).Fields ∧
        mapGet op "quorum" = GoVal.bool true) ∧
      ∀ v ∈ payload, methodOf v ≠ GoVal.str "GET" :=
  ⟨rfl, constructRequestBody_plain_posts { Records := [recA, recB] } { Tokens := false } rfl⟩

/-! ## Lemmas on the loop bodies of buildResponse -/

theorem plainBody_ok (responseJson : List GoVal) (inputRecords : List SingleRecord)
    (acc : List GoVal) (i : Nat) (r : SingleRecord) (entry first : GoMap) (rest : List GoVal)
    (hr : inputRecords[i]? = some r) (he : responseJson[i]? = some (GoVal.map entry))
    (hf : mapGet entry "records" = GoVal.slice (GoVal.map first :: rest)) :
    buildResponse.plainBody responseJson inputRecords acc i =
      Except.ok (acc ++ [GoVal.map (mapSet first "table" (GoVal.str r.Table))]) := by
  have h0 : sliceIndex (GoVal.map first :: rest) 0 = Except.ok (GoVal.map first) := by
    simp [sliceIndex]
  simp only [buildResponse.plainBody, sliceIndex_natCast _ _ _ hr, sliceIndex_natCast _ _ _ he,
    bind, Except.bind, assertMap, assertSlice, hf, h0, pure, Except.pure]

theorem tokensBody_ok (responseJson : List GoVal) (inputRecords : List SingleRecord)
    (acc : List GoVal) (n j : Nat) (r : SingleRecord) (entry first : GoMap) (rest : List GoVal)
    (g fl : GoMap) (hlen : responseJson.length = 2 * n)
    (hr : inputRecords[j]? = some r) (he : responseJson[j]? = some (GoVal.map entry))
    (hf : mapGet entry "records" = GoVal.slice (GoVal.map first :: rest))
    (hg : responseJson[n + j]? = some (GoVal.map g))
    (hfl : mapGet g "fields" = GoVal.map fl) :
    buildResponse.tokensBody responseJson inputRecords acc (n + j) =
      Except.ok (acc ++ [GoVal.map (mapSet (mapSet g "table" (GoVal.str r.Table)) "fields"
        (GoVal.map (mapSet fl "skyflow_id" (mapGet first "skyflow_id"))))]) := by
  have h0 : sliceIndex (GoVal.map first :: rest) 0 = Except.ok (GoVal.map first) := by
    simp [sliceIndex]
  have e1 : ((n + j : Nat) : Int) - ((responseJson.length : Int) - (responseJson.length : Int) / 2)
      = ((j : Nat) : Int) := by
    rw [hlen]; push_cast; omega
  have e2 : ((n + j : Nat) : Int) - (responseJson.length : Int) / 2 = ((j : Nat) : Int) := by
    rw [hlen]; push_cast; omega
  have hfields : mapGet (mapSet g "table" (GoVal.str r.Table)) "fields" = GoVal.map fl := by
    rw [mapGet_mapSet_other _ _ _ _ (by decide)]; exact hfl
  simp only [buildResponse.tokensBody, e1, e2, sliceIndex_natCast _ _ _ hr,
    sliceIndex_natCast _ _ _ he, sliceIndex_natCast _ _ _ hg,
    bind, Except.bind, assertMap, assertSlice, hf, h0, hfields, pure, Except.pure]

theorem buildResponse_plain_spec (insertApi : InsertApi) (responseJson : List GoVal)
    (requestRecords : InsertRecord) (hTokens : insertApi.Options.Tokens = false)
    (hlen : responseJson.length = requestRecords.Records.length)
    (hshape : ∀ i, i < responseJson.length → ∃ entry first rest,
      responseJson[i]? = some (GoVal.map entry) ∧
      mapGet entry "records" = GoVal.slice (GoVal.map first :: rest)) :
    ∃ out, buildResponse insertApi responseJson requestRecords =
        Except.ok [("records", GoVal.slice out)] ∧
      out.length = requestRecords.Records.length ∧
      ∀ i, i < requestRecords.Records.length → ∃ r entry first rest,
        requestRecords.Records[i]? = some r ∧
        responseJson[i]? = some (GoVal.map entry) ∧
        mapGet entry "records" = GoVal.slice (GoVal.map first :: rest) ∧
        out[i]? = some (GoVal.map (mapSet first "table" (GoVal.str r.Table))) := by
  obtain ⟨out, hout, hl, hall⟩ := forLoop_spec
    (buildResponse.plainBody responseJson requestRecords.Records)
    (fun i v => ∃ r entry first rest,
        requestRecords.Records[i]? = some r ∧
        responseJson[i]? = some (GoVal.map entry) ∧
        mapGet entry "records" = GoVal.slice (GoVal.map first :: rest) ∧
        v = GoVal.map (mapSet first "table" (GoVal.str r.Table)))
    responseJson.length 0 []
    (by
      intro j hj acc
      obtain ⟨entry, first, rest, he, hf⟩ := hshape j hj
      have hj' : j < requestRecords.Records.length := hlen ▸ hj
      have hr : requestRecords.Records[j]? = some (requestRecords.Records[j]) :=
        List.getElem?_eq_getElem hj'
      rw [Nat.zero_add]
      exact ⟨_, plainBody_ok _ _ acc j _ entry first rest hr he hf,
        _, entry, first, rest, hr, he, hf, rfl⟩)
  refine ⟨out, ?_, hl.trans hlen, ?_⟩
  · simp only [buildResponse, hTokens, Bool.false_eq_true, if_false, hout, bind, Except.bind,
      pure, Except.pure, List.nil_append, mapSet]
  · intro i hi
    obtain ⟨v, hv, r, entry, first, rest, hr, he, hf, rfl⟩ := hall i (hlen ▸ hi)
    rw [Nat.zero_add] at hr he
    exact ⟨r, entry, first, rest, hr, he, hf, hv⟩

theorem buildResponse_tokens_spec (insertApi : InsertApi) (responseJson : List GoVal)
    (requestRecords : InsertRecord) (n : Nat) (hTokens : insertApi.Options.Tokens = true)
    (hn : requestRecords.Records.length = n) (hlen : responseJson.length = 2 * n)
    (hpost : ∀ i, i < n → ∃ entry first rest,
      responseJson[i]? = some (GoVal.map entry) ∧
      mapGet entry "records" = GoVal.slice (GoVal.map first :: rest))
    (hget : ∀ i, i < n → ∃ g fl,
      responseJson[n + i]? = some (GoVal.map g) ∧ mapGet g "fields" = GoVal.map fl) :
    ∃ out, buildResponse insertApi responseJson requestRecords =
        Except.ok [("records", GoVal.slice out)] ∧
      out.length = n ∧
      ∀ i, i < n → ∃ r entry first rest g fl,
        requestRecords.Records[i]? = some r ∧
        responseJson[i]? = some (GoVal.map entry) ∧
        mapGet entry "records" = GoVal.slice (GoVal.map first :: rest) ∧
        responseJson[n + i]? = some (GoVal.map g) ∧ mapGet g "fields" = GoVal.map fl ∧
        out[i]? = some (GoVal.map (mapSet (mapSet g "table" (GoVal.str r.Table)) "fields"
          (GoVal.map (mapSet fl "skyflow_id" (mapGet first "skyflow_id"))))) := by
  obtain ⟨out, hout, hl, hall⟩ := forLoop_spec
    (buildResponse.tokensBody responseJson requestRecords.Records)
    (fun i v => ∃ j r entry first rest g fl, i = n + j ∧
        requestRecords.Records[j]? = some r ∧
        responseJson[j]? = some (GoVal.map entry) ∧
        mapGet entry "records" = GoVal.slice (GoVal.map first :: rest) ∧
        responseJson[n + j]? = some (GoVal.map g) ∧ mapGet g "fields" = GoVal.map fl ∧
        v = GoVal.map (mapSet (mapSet g "table" (GoVal.str r.Table)) "fields"
          (GoVal.map (mapSet fl "skyflow_id" (mapGet first "skyflow_id")))))
    n n []
    (by
      intro j hj acc
      obtain ⟨entry, first, rest, he, hf⟩ := hpost j hj
      obtain ⟨g, fl, hg, hfl⟩ := hget j hj
      have hj' : j < requestRecords.Records.length := hn ▸ hj
      have hr : requestRecords.Records[j]? = some (requestRecords.Records[j]) :=
        List.getElem?_eq_getElem hj'
      exact ⟨_, tokensBody_ok _ _ acc n j _ entry first rest g fl hlen hr he hf hg hfl,
        j, _, entry, first, rest, g, fl, rfl, hr, he, hf, hg, hfl, rfl⟩)
  have h1 : responseJson.length / 2 = n := by omega
  have h2 : responseJson.length - n = n := by omega
  refine ⟨out, ?_, hl, ?_⟩
  · simp only [buildResponse, hTokens, if_true, h1, h2, hout, bind, Except.bind,
      pure, Except.pure, List.nil_append, mapSet]
  · intro i hi
    obtain ⟨v, hv, j, r, entry, first, rest, g, fl, hij, hr, he, hf, hg, hfl, rfl⟩ := hall i hi
    have hji : j = i := by omega
    subst hji
    exact ⟨r, entry, first, rest, g, fl, hr, he, hf, hg, hfl, hv⟩

/-! ## Reconciliation: claims C3, C4, C5 -/

/-- C3 (evaluation of the code where the claim fails): with tokens enabled and the two
records A and B the payload is POST, GET, POST, GET; on the response that holds, at
each position, the result of the operation at that position (an insert result with
`records[0].skyflow_id` for a POST, a fields mapping for a GET), `buildResponse` panics
with a failed type assertion instead of returning two records. -/
theorem buildResponse_aligned_response_panics :
    (∃ payload,
      mapGet (constructRequestBody { Records := [recA, recB] } { Tokens := true }).1
        "records" = GoVal.slice payload ∧
      payload.map methodOf =
        [GoVal.str "POST", GoVal.str "GET", GoVal.str "POST", GoVal.str "GET"]) ∧
    buildResponse (sampleApi [] true)
      [insertResult "id-A", readBackResult [("name", GoVal.str "tok-A")],
       insertResult "id-B", readBackResult [("name", GoVal.str "tok-B")]]
      { Records := [recA, recB] } = Except.error Panic.typeAssertion :=
  ⟨⟨_, rfl, rfl⟩, rfl⟩

/-- C4 (counterexample): with tokens enabled, the records A and B of table "person"
and the response whose positions 0, 1 hold the POST echoes and whose positions 2, 3
hold `{records:[{skyflow_id:"id-A"}]}` and `{records:[{skyflow_id:"id-B"}]}`,
`buildResponse` panics with a failed type assertion; it returns no records. -/
theorem buildResponse_echo_then_ids_panics :
    buildResponse (sampleApi [] true)
      [postEcho [("name", GoVal.str "A")], postEcho [("name", GoVal.str "B")],
       insertResult "id-A", insertResult "id-B"]
      { Records := [recA, recB] } = Except.error Panic.typeAssertion ∧
    ¬ ∃ result, buildResponse (sampleApi [] true)
      [postEcho [("name", GoVal.str "A")], postEcho [("name", GoVal.str "B")],
       insertResult "id-A", insertResult "id-B"]
      { Records := [recA, recB] } = Except.ok result := by
  have h : buildResponse (sampleApi [] true)
      [postEcho [("name", GoVal.str "A")], postEcho [("name", GoVal.str "B")],
       insertResult "id-A", insertResult "id-B"]
      { Records := [recA, recB] } = Except.error Panic.typeAssertion := rfl
  refine ⟨h, ?_⟩
  rintro ⟨result, hr⟩
  rw [h] at hr
  cases hr

/-- C4 (amended): with tokens enabled, for every N input records and every response of
length 2N in which positions 0..N-1 hold the insert results
`{records:[{skyflow_id: id_i}]}` and positions N..2N-1 hold the read-back entries
`{fields: f_i}`, `buildResponse` returns N records where, for every i < N, record i has
table equal to input record i's table and fields equal to f_i plus
skyflow_id = id_i. -/
theorem buildResponse_ids_then_fields (insertApi : InsertApi) (inputs : List SingleRecord)
    (ids : List String) (fs : List GoMap) (hTokens : insertApi.Options.Tokens = true)
    (hids : ids.length = inputs.length) (hfs : fs.length = inputs.length) :
    ∃ out, buildResponse insertApi (ids.map insertResult ++ fs.map readBackResult)
        { Records := inputs } = Except.ok [("records", GoVal.slice out)] ∧
      out.length = inputs.length ∧
      ∀ i, i < inputs.length → ∃ r id f reconciled,
        inputs[i]? = some r ∧ ids[i]? = some id ∧ fs[i]? = some f ∧
        out[i]? = some (GoVal.map reconciled) ∧
        mapGet reconciled "table" = GoVal.str r.Table ∧
        mapGet reconciled "fields" = GoVal.map (mapSet f "skyflow_id" (GoVal.str id)) := by
  have hpost : ∀ i, i < inputs.length →
      (ids.map insertResult ++ fs.map readBackResult)[i]? = some (insertResult (ids[i]?.getD "")) ∧
      ∃ id, ids[i]? = some id := by
    intro i hi
    have hi' : i < ids.length := hids ▸ hi
    rw [List.getElem?_append_left (by simpa using hi')]
    simp [List.getElem?_map, List.getElem?_eq_getElem hi']
  have hget : ∀ i, i < inputs.length →
      (ids.map insertResult ++ fs.map readBackResult)[inputs.length + i]? =
        some (readBackResult (fs[i]?.getD [])) ∧ ∃ f, fs[i]? = some f := by
    intro i hi
    have hi' : i < fs.length := hfs ▸ hi
    rw [List.getElem?_append_right (by simp [hids])]
    simp [List.getElem?_map, List.getElem?_eq_getElem hi', hids]
  obtain ⟨out, hout, hl, hall⟩ := buildResponse_tokens_spec insertApi
    (ids.map insertResult ++ fs.map readBackResult) { Records := inputs } inputs.length
    hTokens rfl (by simp [hids, hfs]; omega)
    (fun i hi => ⟨_, _, _, (hpost i hi).1, rfl⟩)
    (fun i hi => ⟨_, _, (hget i hi).1, rfl⟩)
  refine ⟨out, hout, hl, ?_⟩
  intro i hi
  obtain ⟨r, entry, first, rest, g, fl, hr, he, hf, hg, hfl, ho⟩ := hall i hi
  obtain ⟨hp1, id, hid⟩ := hpost i hi
  obtain ⟨hg1, f, hf1⟩ := hget i hi
  rw [hp1, hid] at he
  rw [hg1, hf1] at hg
  simp only [Option.getD_some, insertResult, readBackResult, Option.some.injEq,
    GoVal.map.injEq] at he hg
  subst he
  subst hg
  simp only [mapGet, if_true, GoVal.slice.injEq, List.cons.injEq, GoVal.map.injEq] at hf hfl
  obtain ⟨hfirst, _⟩ := hf
  subst hfirst
  subst hfl
  refine ⟨r, id, f, _, hr, hid, hf1, ho, ?_, ?_⟩
  · rw [mapGet_mapSet_other _ _ _ _ (by decide), mapGet_mapSet_same]
  · rw [mapGet_mapSet_same]
    rfl

/-- C4 (amended), at N = 2: table "person", fields name "A" and "B", identifiers "id-A"
and "id-B"; the reconciled records carry the name and the identifier. -/
theorem buildResponse_ids_then_fields_witness :
    (sampleApi [] true).Options.Tokens = true ∧
    ["id-A", "id-B"].length = [recA, recB].length ∧
    [[("name", GoVal.str "A")], [("name", GoVal.str "B")]].length = [recA, recB].length ∧
    (∃ out, buildResponse (sampleApi [] true)
        (["id-A", "id-B"].map insertResult ++
          [[("name", GoVal.str "A")], [("name", GoVal.str "B")]].map readBackResult)
        { Records := [recA, recB] } = Except.ok [("records", GoVal.slice out)] ∧
      out.length = [recA, recB].length ∧
      ∀ i, i < [recA, recB].length → ∃ r id f reconciled,
        [recA, recB][i]? = some r ∧ ["id-A", "id-B"][i]? = some id ∧
        [[("name", GoVal.str "A")], [("name", GoVal.str "B")]][i]? = some f ∧
        out[i]? = some (GoVal.map reconciled) ∧
        mapGet reconciled "table" = GoVal.str r.Table ∧
        mapGet reconciled "fields" = GoVal.map (mapSet f "skyflow_id" (GoVal.str id))) ∧
    buildResponse (sampleApi [] true)
        [insertResult "id-A", insertResult "id-B",
         readBackResult [("name", GoVal.str "A")], readBackResult [("name", GoVal.str "B")]]
        { Records := [recA, recB] } =
      Except.ok [("records", GoVal.slice [
        GoVal.map [("fields", GoVal.map [("name", GoVal.str "A"),
          ("skyflow_id", GoVal.str "id-A")]), ("table", GoVal.str "person")],
        GoVal.map [("fields", GoVal.map [("name", GoVal.str "B"),
          ("skyflow_id", GoVal.str "id-B")]), ("table", GoVal.str "person")]])] :=
  ⟨rfl, rfl, rfl,
    buildResponse_ids_then_fields (sampleApi [] true) [recA, recB] ["id-A", "id-B"]
      [[("name", GoVal.str "A")], [("name", GoVal.str "B")]] rfl rfl rfl,
    rfl⟩

/-- C5: with tokens disabled, for every list of N input records and every response of
N entries each holding a non-empty records sequence whose first element is an object,
`buildResponse` returns exactly N records in original order, where record i is the
first inner record of response entry i with table set to input record i's table name
and every other key, fields included, as in the response. -/
theorem buildResponse_plain_roundtrip (insertApi : InsertApi) (responseJson : List GoVal)
    (requestRecords : InsertRecord) (hTokens : insertApi.Options.Tokens = false)
    (hlen : responseJson.length = requestRecords.Records.length)
    (hshape : ∀ i, i < responseJson.length → ∃ entry first rest,
      responseJson[i]? = some (GoVal.map entry) ∧
      mapGet entry "records" = GoVal.slice (GoVal.map first :: rest)) :
    ∃ out, buildResponse insertApi responseJson requestRecords =
        Except.ok [("records", GoVal.slice out)] ∧
      out.length = requestRecords.Records.length ∧
      ∀ i, i < requestRecords.Records.length → ∃ r entry first rest reconciled,
        requestRecords.Records[i]? = some r ∧
        responseJson[i]? = some (GoVal.map entry) ∧
        mapGet entry "records" = GoVal.slice (GoVal.map first :: rest) ∧
        out[i]? = some (GoVal.map reconciled) ∧
        reconciled = mapSet first "table" (GoVal.str r.Table) ∧
        mapGet reconciled "table" = GoVal.str r.Table ∧
        mapGet reconciled "fields" = mapGet first "fields" ∧
        ∀ k, k ≠ "table" → mapGet reconciled k = mapGet first k := by
  obtain ⟨out, hout, hl, hall⟩ :=
    buildResponse_plain_spec insertApi responseJson requestRecords hTokens hlen hshape
  refine ⟨out, hout, hl, ?_⟩
  intro i hi
  obtain ⟨r, entry, first, rest, hr, he, hf, ho⟩ := hall i hi
  exact ⟨r, entry, first, rest, _, hr, he, hf, ho, rfl, mapGet_mapSet_same _ _ _,
    mapGet_mapSet_other _ _ _ _ (by decide),
    fun k hk => mapGet_mapSet_other _ _ _ _ (Ne.symm hk)⟩

/-- C5, at the two "person" records with names "A" and "B": the reconciled records are
`{fields:{name:"A"}, table:"person"}` and `{fields:{name:"B"}, table:"person"}`. -/
theorem buildResponse_plain_roundtrip_witness :
    (sampleApi [] false).Options.Tokens = false ∧
    [postEcho [("name", GoVal.str "A")], postEcho [("name", GoVal.str "B")]].length =
      [recA, recB].length ∧
    (∃ out, buildResponse (sampleApi [] false)
        [postEcho [("name", GoVal.str "A")], postEcho [("name", GoVal.str "B")]]
        { Records := [recA, recB] } = Except.ok [("records", GoVal.slice out)] ∧
      out.length = [recA, recB].length ∧
      ∀ i, i < [recA, recB].length → ∃ r entry first rest reconciled,
        [recA, recB][i]? = some r ∧
        [postEcho [("name", GoVal.str "A")], postEcho [("name", GoVal.str "B")]][i]? =
          some (GoVal.map entry) ∧
        mapGet entry "records" = GoVal.slice (GoVal.map first :: rest) ∧
        out[i]? = some (GoVal.map reconciled) ∧
        reconciled = mapSet first "table" (GoVal.str r.Table) ∧
        mapGet reconciled "table" = GoVal.str r.Table ∧
        mapGet reconciled "fields" = mapGet first "fields" ∧
        ∀ k, k ≠ "table" → mapGet reconciled k = mapGet first k) ∧
    buildResponse (sampleApi [] false)
        [postEcho [("name", GoVal.str "A")], postEcho [("name", GoVal.str "B")]]
        { Records := [recA, recB] } =
      Except.ok [("records", GoVal.slice [
        GoVal.map [("fields", GoVal.map [("name", GoVal.str "A")]),
          ("table", GoVal.str "person")],
        GoVal.map [("fields", GoVal.map [("name", GoVal.str "B")]),
          ("table", GoVal.str "person")]])] :=
  ⟨rfl, rfl,
    buildResponse_plain_roundtrip (sampleApi [] false)
      [postEcho [("name", GoVal.str "A")], postEcho [("name", GoVal.str "B")]]
      { Records := [recA, recB] } rfl rfl
      (fun i hi =>
        match i, hi with
        | 0, _ => ⟨_, _, _, rfl, rfl⟩
        | 1, _ => ⟨_, _, _, rfl, rfl⟩),
    rfl⟩

/-! ## Lemmas on the loops of doValidations -/

theorem fieldLoop_none (pkg : Pkg) (f : GoMap) (h : ∀ kv ∈ f, kv.1 ≠ "") :
    doValidations.fieldLoop pkg f = none := by
  induction f with
  | nil => rfl
  | cons kv rest ih =>
    obtain ⟨k, v⟩ := kv
    have hk : k ≠ "" := h (k, v) (List.mem_cons_self _ _)
    simp only [doValidations.fieldLoop, hk, if_false]
    exact ih (fun kv hkv => h kv (List.mem_cons_of_mem _ hkv))

theorem fieldLoop_some (pkg : Pkg) (f : GoMap) (h : ∃ kv ∈ f, kv.1 = "") :
    doValidations.fieldLoop pkg f = some (validationError pkg Message.EMPTY_COLUMN_NAME) := by
  induction f with
  | nil => obtain ⟨kv, hkv, _⟩ := h; cases hkv
  | cons kv rest ih =>
    obtain ⟨k, v⟩ := kv
    by_cases hk : k = ""
    · simp [doValidations.fieldLoop, hk, validationError]
    · simp only [doValidations.fieldLoop, hk, if_false]
      apply ih
      obtain ⟨kv', hmem, hempty⟩ := h
      rcases List.mem_cons.mp hmem with rfl | hrest
      · exact absurd hempty hk
      · exact ⟨kv', hrest, hempty⟩

theorem fieldLoop_code (pkg : Pkg) (f : GoMap) (e : SkyflowError)
    (h : doValidations.fieldLoop pkg f = some e) : e.code = pkg.SdkErrorCode := by
  induction f with
  | nil => cases h
  | cons kv rest ih =>
    obtain ⟨k, v⟩ := kv
    by_cases hk : k = ""
    · simp only [doValidations.fieldLoop, hk, if_true, Option.some.injEq] at h
      rw [← h]; rfl
    · simp only [doValidations.fieldLoop, hk, if_false] at h
      exact ih h

theorem recordLoop_wellFormed_cons (pkg : Pkg) (record : GoVal) (rest : List GoVal)
    (h : WellFormedRecord record) :
    doValidations.recordLoop pkg (record :: rest) = doValidations.recordLoop pkg rest := by
  obtain ⟨m, t, f, rfl, ht, htne, hf, hfne, hkeys⟩ := h
  have hlen : ¬ f.length = 0 := by
    intro h0; exact hfne (List.length_eq_zero.mp h0)
  rw [doValidations.recordLoop]
  simp only [assertMap, bind, Except.bind, ht, hf, isNil, isEmptyString, htne, decide_False,
    Bool.false_eq_true, if_false, hlen, fieldLoop_none pkg f hkeys]

theorem recordLoop_wellFormed_append (pkg : Pkg) (pre rest : List GoVal)
    (h : ∀ record ∈ pre, WellFormedRecord record) :
    doValidations.recordLoop pkg (pre ++ rest) = doValidations.recordLoop pkg rest := by
  induction pre with
  | nil => rfl
  | cons record pre ih =>
    rw [List.cons_append, recordLoop_wellFormed_cons pkg record _
      (h record (List.mem_cons_self _ _))]
    exact ih (fun r hr => h r (List.mem_cons_of_mem _ hr))

theorem recordLoop_code (pkg : Pkg) (records : List GoVal) (e : SkyflowError)
    (h : doValidations.recordLoop pkg records = Except.ok (some e)) :
    e.code = pkg.SdkErrorCode := by
  induction records with
  | nil => simp [doValidations.recordLoop] at h
  | cons record rest ih =>
    rw [doValidations.recordLoop] at h
    cases record with
    | map m =>
      simp only [assertMap, bind, Except.bind, pure, Except.pure] at h
      by_cases h1 : isNil (mapGet m "table") = true
      · simp only [h1, if_true, Bool.false_eq_true, if_false, Except.ok.injEq, Option.some.injEq] at h
        rw [← h]; rfl
      · simp only [h1, Bool.false_eq_true, if_false] at h
        by_cases h2 : isEmptyString (mapGet m "table") = true
        · simp only [h2, if_true, Bool.false_eq_true, if_false, Except.ok.injEq, Option.some.injEq] at h
          rw [← h]; rfl
        · simp only [h2, Bool.false_eq_true, if_false] at h
          by_cases h3 : isNil (mapGet m "fields") = true
          · simp only [h3, if_true, Bool.false_eq_true, if_false, Except.ok.injEq, Option.some.injEq] at h
            rw [← h]; rfl
          · simp only [h3, Bool.false_eq_true, if_false] at h
            by_cases h4 : isEmptyString (mapGet m "fields") = true
            · simp only [h4, if_true, Bool.false_eq_true, if_false, Except.ok.injEq, Option.some.injEq] at h
              rw [← h]; rfl
            · simp only [h4, Bool.false_eq_true, if_false] at h
              cases hf : mapGet m "fields" with
              | map f =>
                simp only [hf, assertMap] at h
                by_cases h5 : f.length = 0
                · simp only [h5, if_true, Bool.false_eq_true, if_false, Except.ok.injEq, Option.some.injEq] at h
                  rw [← h]; rfl
                · simp only [h5, Bool.false_eq_true, if_false] at h
                  cases hl : doValidations.fieldLoop pkg f with
                  | none =>
                    rw [hl] at h
                    simp only [Bool.false_eq_true, if_false] at h
                    exact ih h
                  | some err =>
                    rw [hl] at h
                    simp only [Bool.false_eq_true, if_false, Except.ok.injEq,
                      Option.some.injEq] at h
                    rw [← h]
                    exact fieldLoop_code pkg f err hl
              | nil => simp [hf, assertMap] at h
              | bool b => simp [hf, assertMap] at h
              | num n => simp [hf, assertMap] at h
              | str s => simp [hf, assertMap] at h
              | slice xs => simp [hf, assertMap] at h
              | other typ => simp [hf, assertMap] at h
    | nil => simp [assertMap, bind, Except.bind] at h
    | bool b => simp [assertMap, bind, Except.bind] at h
    | num n => simp [assertMap, bind, Except.bind] at h
    | str s => simp [assertMap, bind, Except.bind] at h
    | slice xs => simp [assertMap, bind, Except.bind] at h
    | other typ => simp [assertMap, bind, Except.bind] at h

theorem doValidations_of_slice (pkg : Pkg) (insertApi : InsertApi) (record : GoVal)
    (rest : List GoVal) (hvault : pkg.isValidVaultDetails insertApi.Configuration = none)
    (hrecords : mapGet insertApi.Records "records" = GoVal.slice (record :: rest)) :
    doValidations pkg insertApi = doValidations.recordLoop pkg (record :: rest) := by
  simp only [doValidations, hvault, hrecords, isNil, Bool.false_eq_true, if_false, assertSlice,
    bind, Except.bind, List.length_cons, Nat.succ_ne_zero]

theorem recordLoop_bad_first (pkg : Pkg) (m : GoMap) (post : List GoVal) :
    (mapGet m "table" = GoVal.nil →
      doValidations.recordLoop pkg (GoVal.map m :: post) =
        Except.ok (some (validationError pkg Message.MISSING_TABLE))) ∧
    (mapGet m "table" = GoVal.str "" →
      doValidations.recordLoop pkg (GoVal.map m :: post) =
        Except.ok (some (validationError pkg Message.EMPTY_TABLE_NAME))) ∧
    (∀ t, mapGet m "table" = GoVal.str t → t ≠ "" → mapGet m "fields" = GoVal.nil →
      doValidations.recordLoop pkg (GoVal.map m :: post) =
        Except.ok (some (validationError pkg Message.FIELDS_KEY_ERROR))) ∧
    (∀ t, mapGet m "table" = GoVal.str t → t ≠ "" → mapGet m "fields" = GoVal.map [] →
      doValidations.recordLoop pkg (GoVal.map m :: post) =
        Except.ok (some (validationError pkg Message.EMPTY_FIELDS))) ∧
    (∀ t f, mapGet m "table" = GoVal.str t → t ≠ "" → mapGet m "fields" = GoVal.map f →
      (∃ kv ∈ f, kv.1 = "") →
      doValidations.recordLoop pkg (GoVal.map m :: post) =
        Except.ok (some (validationError pkg Message.EMPTY_COLUMN_NAME))) := by
  refine ⟨?_, ?_, ?_, ?_, ?_⟩
  · intro ht
    rw [doValidations.recordLoop]
    simp only [assertMap, bind, Except.bind, pure, Except.pure, ht, isNil, if_true,
      validationError]
  · intro ht
    rw [doValidations.recordLoop]
    simp only [assertMap, bind, Except.bind, pure, Except.pure, ht, isNil, isEmptyString,
      decide_True, Bool.false_eq_true, if_false, if_true, validationError]
  · intro t ht htne hf
    rw [doValidations.recordLoop]
    simp only [assertMap, bind, Except.bind, pure, Except.pure, ht, hf, isNil, isEmptyString,
      htne, decide_False, Bool.false_eq_true, if_false, if_true, validationError]
  · intro t ht htne hf
    rw [doValidations.recordLoop]
    simp only [assertMap, bind, Except.bind, pure, Except.pure, ht, hf, isNil, isEmptyString,
      htne, decide_False, Bool.false_eq_true, if_false, List.length_nil, if_true,
      validationError]
  · intro t f ht htne hf hkey
    have hlen : ¬ f.length = 0 := by
      intro h0
      obtain ⟨kv, hkv, _⟩ := hkey
      rw [List.length_eq_zero.mp h0] at hkv
      cases hkv
    rw [doValidations.recordLoop]
    simp only [assertMap, bind, Except.bind, pure, Except.pure, ht, hf, isNil, isEmptyString,
      htne, decide_False, Bool.false_eq_true, if_false, hlen, fieldLoop_some pkg f hkey]

theorem rawA_wellFormed : ∀ record ∈ [rawA], WellFormedRecord record := by
  intro record hmem
  rw [List.mem_singleton] at hmem
  subst hmem
  refine ⟨_, "person", [("name", GoVal.str "A")], rfl, rfl, by decide, rfl,
    List.cons_ne_nil _ _, ?_⟩
  intro kv hkv
  rw [List.mem_singleton] at hkv
  subst hkv
  decide

theorem doValidations_no_records (pkg : Pkg) (insertApi : InsertApi)
    (hvault : pkg.isValidVaultDetails insertApi.Configuration = none)
    (h : mapGet insertApi.Records "records" = GoVal.nil) :
    doValidations pkg insertApi =
      Except.ok (some (validationError pkg Message.RECORDS_KEY_NOT_FOUND)) := by
  simp only [doValidations, hvault, h, isNil, if_true, validationError]

theorem doValidations_empty_records (pkg : Pkg) (insertApi : InsertApi)
    (hvault : pkg.isValidVaultDetails insertApi.Configuration = none)
    (h : mapGet insertApi.Records "records" = GoVal.slice []) :
    doValidations pkg insertApi =
      Except.ok (some (validationError pkg Message.EMPTY_RECORDS)) := by
  simp only [doValidations, hvault, h, isNil, Bool.false_eq_true, if_false, assertSlice,
    bind, Except.bind, pure, Except.pure, List.length_nil, if_true, validationError]

/-! ## Validation: claims C8, C9, C10 -/

/-- C8: for every insert input with valid vault details whose records collection is
non-empty and in which every record has a non-empty table name and a non-empty fields
mapping with only non-empty field names, `doValidations` returns no error. -/
theorem doValidations_wellFormed (pkg : Pkg) (insertApi : InsertApi)
    (recordsArray : List GoVal)
    (hvault : pkg.isValidVaultDetails insertApi.Configuration = none)
    (hrecords : mapGet insertApi.Records "records" = GoVal.slice recordsArray)
    (hnonempty : recordsArray ≠ [])
    (hwf : ∀ record ∈ recordsArray, WellFormedRecord record) :
    doValidations pkg insertApi = Except.ok none := by
  cases recordsArray with
  | nil => exact absurd rfl hnonempty
  | cons record rest =>
    rw [doValidations_of_slice pkg insertApi record rest hvault hrecords]
    have := recordLoop_wellFormed_append pkg (record :: rest) [] hwf
    rw [List.append_nil] at this
    rw [this]
    rfl

/-- C8, at the input `{records: [{table: "person", fields: {name: "A"}}]}`. -/
theorem doValidations_wellFormed_witness :
    samplePkg.isValidVaultDetails (sampleApi [("records", GoVal.slice [rawA])] false).Configuration
      = none ∧
    mapGet (sampleApi [("records", GoVal.slice [rawA])] false).Records "records" =
      GoVal.slice [rawA] ∧
    [rawA] ≠ [] ∧
    (∀ record ∈ [rawA], WellFormedRecord record) ∧
    doValidations samplePkg (sampleApi [("records", GoVal.slice [rawA])] false) =
      Except.ok none :=
  ⟨rfl, rfl, List.cons_ne_nil _ _, rawA_wellFormed,
    doValidations_wellFormed samplePkg (sampleApi [("records", GoVal.slice [rawA])] false)
      [rawA] rfl rfl (List.cons_ne_nil _ _) rawA_wellFormed⟩

/-- C9: for every insert input with valid vault details, each malformed shape makes
`doValidations` return the error of the matching message constant: a `records` key that
reads as nil (absent) gives RECORDS_KEY_NOT_FOUND; an empty records collection gives
EMPTY_RECORDS; and, for a record that follows only well-formed records, a `table` that
reads as nil (absent) gives MISSING_TABLE, a table equal to the empty string gives
EMPTY_TABLE_NAME, and with a non-empty table name a `fields` that reads as nil (absent)
gives FIELDS_KEY_ERROR, an empty fields mapping gives EMPTY_FIELDS, and a fields mapping
with an empty field name gives EMPTY_COLUMN_NAME. -/
theorem doValidations_malformed (pkg : Pkg) (insertApi : InsertApi)
    (hvault : pkg.isValidVaultDetails insertApi.Configuration = none) :
    (mapGet insertApi.Records "records" = GoVal.nil →
      doValidations pkg insertApi =
        Except.ok (some (NewSkyflowError pkg.SdkErrorCode
          (Sprintf Message.RECORDS_KEY_NOT_FOUND [insertTag])))) ∧
    (mapGet insertApi.Records "records" = GoVal.slice [] →
      doValidations pkg insertApi =
        Except.ok (some (NewSkyflowError pkg.SdkErrorCode
          (Sprintf Message.EMPTY_RECORDS [insertTag])))) ∧
    (∀ (pre post : List GoVal) (m : GoMap),
      mapGet insertApi.Records "records" = GoVal.slice (pre ++ GoVal.map m :: post) →
      (∀ record ∈ pre, WellFormedRecord record) →
      (mapGet m "table" = GoVal.nil →
        doValidations pkg insertApi =
          Except.ok (some (NewSkyflowError pkg.SdkErrorCode
            (Sprintf Message.MISSING_TABLE [insertTag])))) ∧
      (mapGet m "table" = GoVal.str "" →
        doValidations pkg insertApi =
          Except.ok (some (NewSkyflowError pkg.SdkErrorCode
            (Sprintf Message.EMPTY_TABLE_NAME [insertTag])))) ∧
      (∀ t, mapGet m "table" = GoVal.str t → t ≠ "" → mapGet m "fields" = GoVal.nil →
        doValidations pkg insertApi =
          Except.ok (some (NewSkyflowError pkg.SdkErrorCode
            (Sprintf Message.FIELDS_KEY_ERROR [insertTag])))) ∧
      (∀ t, mapGet m "table" = GoVal.str t → t ≠ "" → mapGet m "fields" = GoVal.map [] →
        doValidations pkg insertApi =
          Except.ok (some (NewSkyflowError pkg.SdkErrorCode
            (Sprintf Message.EMPTY_FIELDS [insertTag])))) ∧
      (∀ t f, mapGet m "table" = GoVal.str t → t ≠ "" → mapGet m "fields" = GoVal.map f →
        (∃ kv ∈ f, kv.1 = "") →
        doValidations pkg insertApi =
          Except.ok (some (NewSkyflowError pkg.SdkErrorCode
            (Sprintf Message.EMPTY_COLUMN_NAME [insertTag]))))) := by
  refine ⟨doValidations_no_records pkg insertApi hvault,
    doValidations_empty_records pkg insertApi hvault, ?_⟩
  · intro pre post m hrecords hpre
    have hrun : doValidations pkg insertApi =
        doValidations.recordLoop pkg (GoVal.map m :: post) := by
      cases pre with
      | nil =>
        exact doValidations_of_slice pkg insertApi _ _ hvault hrecords
      | cons record rest =>
        rw [doValidations_of_slice pkg insertApi record (rest ++ GoVal.map m :: post) hvault
          hrecords]
        exact recordLoop_wellFormed_append pkg (record :: rest) _ hpre
    rw [hrun]
    exact recordLoop_bad_first pkg m post

/-- C9, at seven inputs, one for each malformed shape; where a record is malformed it
follows the well-formed record `{table: "person", fields: {name: "A"}}`. -/
theorem doValidations_malformed_witness :
    samplePkg.isValidVaultDetails (sampleApi [] false).Configuration = none ∧
    doValidations samplePkg (sampleApi [] false) =
      Except.ok (some (NewSkyflowError "400"
        (Sprintf Message.RECORDS_KEY_NOT_FOUND ["Insert"]))) ∧
    doValidations samplePkg (sampleApi [("records", GoVal.slice [])] false) =
      Except.ok (some (NewSkyflowError "400" (Sprintf Message.EMPTY_RECORDS ["Insert"]))) ∧
    doValidations samplePkg (inputWith [("fields", GoVal.map [("name", GoVal.str "B")])]) =
      Except.ok (some (NewSkyflowError "400" (Sprintf Message.MISSING_TABLE ["Insert"]))) ∧
    doValidations samplePkg (inputWith [("table", GoVal.str ""),
        ("fields", GoVal.map [("name", GoVal.str "B")])]) =
      Except.ok (some (NewSkyflowError "400" (Sprintf Message.EMPTY_TABLE_NAME ["Insert"]))) ∧
    doValidations samplePkg (inputWith [("table", GoVal.str "person")]) =
      Except.ok (some (NewSkyflowError "400" (Sprintf Message.FIELDS_KEY_ERROR ["Insert"]))) ∧
    doValidations samplePkg (inputWith [("table", GoVal.str "person"),
        ("fields", GoVal.map [])]) =
      Except.ok (some (NewSkyflowError "400" (Sprintf Message.EMPTY_FIELDS ["Insert"]))) ∧
    doValidations samplePkg (inputWith [("table", GoVal.str "person"),
        ("fields", GoVal.map [("", GoVal.str "B")])]) =
      Except.ok (some (NewSkyflowError "400" (Sprintf Message.EMPTY_COLUMN_NAME ["Insert"]))) :=
  ⟨rfl,
    (doValidations_malformed samplePkg (sampleApi [] false) rfl).1 rfl,
    (doValidations_malformed samplePkg (sampleApi [("records", GoVal.slice [])] false)
      rfl).2.1 rfl,
    ((doValidations_malformed samplePkg
      (inputWith [("fields", GoVal.map [("name", GoVal.str "B")])]) rfl).2.2 [rawA] []
      [("fields", GoVal.map [("name", GoVal.str "B")])] rfl rawA_wellFormed).1 rfl,
    ((doValidations_malformed samplePkg
      (inputWith [("table", GoVal.str ""), ("fields", GoVal.map [("name", GoVal.str "B")])])
      rfl).2.2 [rawA] []
      [("table", GoVal.str ""), ("fields", GoVal.map [("name", GoVal.str "B")])]
      rfl rawA_wellFormed).2.1 rfl,
    ((doValidations_malformed samplePkg (inputWith [("table", GoVal.str "person")])
      rfl).2.2 [rawA] []
      [("table", GoVal.str "person")] rfl rawA_wellFormed).2.2.1 "person" rfl (by decide) rfl,
    ((doValidations_malformed samplePkg
      (inputWith [("table", GoVal.str "person"), ("fields", GoVal.map [])])
      rfl).2.2 [rawA] []
      [("table", GoVal.str "person"), ("fields", GoVal.map [])]
      rfl rawA_wellFormed).2.2.2.1 "person" rfl (by decide) rfl,
    ((doValidations_malformed samplePkg
      (inputWith [("table", GoVal.str "person"), ("fields", GoVal.map [("", GoVal.str "B")])])
      rfl).2.2 [rawA] []
      [("table", GoVal.str "person"), ("fields", GoVal.map [("", GoVal.str "B")])]
      rfl rawA_wellFormed).2.2.2.2 "person" [("", GoVal.str "B")] rfl (by decide) rfl
      ⟨("", GoVal.str "B"), List.mem_singleton.mpr rfl, rfl⟩⟩

/-- C10 (counterexample): the input without a `records` key and the input with an
empty records collection make `doValidations` return errors of two different message
constants, RECORDS_KEY_NOT_FOUND and EMPTY_RECORDS, with one and the same code; so it
is not the case that errors of different conditions always differ in their code. -/
theorem doValidations_codes_coincide :
    (∃ ea eb,
      doValidations samplePkg (sampleApi [] false) = Except.ok (some ea) ∧
      doValidations samplePkg (sampleApi [("records", GoVal.slice [])] false) =
        Except.ok (some eb) ∧
      ea.message.format = Message.RECORDS_KEY_NOT_FOUND ∧
      eb.message.format = Message.EMPTY_RECORDS ∧
      ea.code = eb.code) ∧
    ¬ (∀ (pkg : Pkg) (a b : InsertApi) (ea eb : SkyflowError),
      pkg.isValidVaultDetails a.Configuration = none →
      pkg.isValidVaultDetails b.Configuration = none →
      doValidations pkg a = Except.ok (some ea) →
      doValidations pkg b = Except.ok (some eb) →
      ea.message.format ≠ eb.message.format → ea.code ≠ eb.code) := by
  refine ⟨⟨_, _, rfl, rfl, rfl, rfl, rfl⟩, ?_⟩
  intro h
  exact h samplePkg (sampleApi [] false) (sampleApi [("records", GoVal.slice [])] false)
    _ _ rfl rfl rfl rfl (by decide) rfl

/-- C10 (amended): every error `doValidations` returns for a malformed records input
(vault details valid), whichever of the seven conditions it reports, carries the one
code `errors.SdkErrorCode`; the conditions differ in the message constant only. -/
theorem doValidations_error_code (pkg : Pkg) (insertApi : InsertApi) (e : SkyflowError)
    (hvault : pkg.isValidVaultDetails insertApi.Configuration = none)
    (h : doValidations pkg insertApi = Except.ok (some e)) :
    e.code = pkg.SdkErrorCode := by
  cases hrec : mapGet insertApi.Records "records" with
  | slice xs =>
    cases xs with
    | nil =>
      rw [doValidations_empty_records pkg insertApi hvault hrec] at h
      simp only [Except.ok.injEq, Option.some.injEq] at h
      rw [← h]; rfl
    | cons record rest =>
      rw [doValidations_of_slice pkg insertApi record rest hvault hrec] at h
      exact recordLoop_code pkg _ e h
  | nil =>
    rw [doValidations_no_records pkg insertApi hvault hrec] at h
    simp only [Except.ok.injEq, Option.some.injEq] at h
    rw [← h]; rfl
  | bool b => simp [doValidations, hvault, hrec, isNil, assertSlice, bind, Except.bind] at h
  | num n => simp [doValidations, hvault, hrec, isNil, assertSlice, bind, Except.bind] at h
  | str s => simp [doValidations, hvault, hrec, isNil, assertSlice, bind, Except.bind] at h
  | map m => simp [doValidations, hvault, hrec, isNil, assertSlice, bind, Except.bind] at h
  | other typ => simp [doValidations, hvault, hrec, isNil, assertSlice, bind, Except.bind] at h

/-- C10 (amended), at the input whose second record has an empty table name. -/
theorem doValidations_error_code_witness :
    samplePkg.isValidVaultDetails (inputWith [("table", GoVal.str "")]).Configuration = none ∧
    doValidations samplePkg (inputWith [("table", GoVal.str "")]) =
      Except.ok (some (NewSkyflowError "400" (Sprintf Message.EMPTY_TABLE_NAME ["Insert"]))) ∧
    (NewSkyflowError "400" (Sprintf Message.EMPTY_TABLE_NAME ["Insert"])).code =
      samplePkg.SdkErrorCode :=
  ⟨rfl, rfl,
    doValidations_error_code samplePkg (inputWith [("table", GoVal.str "")]) _ rfl rfl⟩

/-! ## Validation: claims C11, C12 -/

theorem fieldLoop_eq_any (pkg : Pkg) (f : GoMap) :
    doValidations.fieldLoop pkg f =
      if f.any (fun kv => decide (kv.1 = "")) then
        some (validationError pkg Message.EMPTY_COLUMN_NAME)
      else none := by
  induction f with
  | nil => rfl
  | cons kv rest ih =>
    obtain ⟨k, v⟩ := kv
    by_cases hk : k = ""
    · simp [doValidations.fieldLoop, hk, validationError]
    · simp only [doValidations.fieldLoop, hk, if_false, ih, List.any_cons, decide_False,
        Bool.false_or]

theorem recordLoop_documented (pkg : Pkg) (m : GoMap) (post : List GoVal) (msg : Message)
    (hshape : mapGet m "fields" = GoVal.nil ∨ ∃ f, mapGet m "fields" = GoVal.map f)
    (hcheck : documentedRecordCheck m = some msg) :
    doValidations.recordLoop pkg (GoVal.map m :: post) =
      Except.ok (some (validationError pkg msg)) := by
  rw [doValidations.recordLoop]
  simp only [assertMap, bind, Except.bind, pure, Except.pure]
  unfold documentedRecordCheck at hcheck
  by_cases h1 : isNil (mapGet m "table") = true
  · simp only [h1, if_true, Option.some.injEq] at hcheck
    simp only [h1, if_true, ← hcheck, validationError]
  · simp only [h1, Bool.false_eq_true, if_false] at hcheck ⊢
    by_cases h2 : isEmptyString (mapGet m "table") = true
    · simp only [h2, if_true, Option.some.injEq] at hcheck
      simp only [h2, if_true, ← hcheck, validationError]
    · simp only [h2, Bool.false_eq_true, if_false] at hcheck ⊢
      rcases hshape with hnil | ⟨f, hf⟩
      · simp only [hnil, Option.some.injEq] at hcheck
        simp only [hnil, isNil, if_true, ← hcheck, validationError]
      · simp only [hf] at hcheck
        simp only [hf, isNil, isEmptyString, Bool.false_eq_true, if_false, assertMap]
        cases f with
        | nil =>
          simp only [List.isEmpty_nil, if_true, Option.some.injEq] at hcheck
          simp only [List.length_nil, if_true, ← hcheck, validationError]
        | cons kv rest =>
          simp only [List.isEmpty_cons, Bool.false_eq_true, if_false] at hcheck
          simp only [List.length_cons, Nat.succ_ne_zero, if_false, fieldLoop_eq_any]
          by_cases h3 : (kv :: rest).any (fun kv => decide (kv.1 = "")) = true
          · simp only [h3, if_true, Option.some.injEq] at hcheck
            simp only [h3, if_true, ← hcheck]
          · simp only [h3, Bool.false_eq_true, if_false] at hcheck
            cases hcheck

theorem recordLoop_total (pkg : Pkg) (records : List GoVal)
    (h : ∀ record ∈ records, ∃ m, record = GoVal.map m ∧ FieldsShape (mapGet m "fields")) :
    ∃ outcome, doValidations.recordLoop pkg records = Except.ok outcome := by
  induction records with
  | nil => exact ⟨none, rfl⟩
  | cons record rest ih =>
    obtain ⟨m, rfl, hshape⟩ := h record (List.mem_cons_self _ _)
    have ihr := ih (fun r hr => h r (List.mem_cons_of_mem _ hr))
    rw [doValidations.recordLoop]
    simp only [assertMap, bind, Except.bind, pure, Except.pure]
    by_cases h1 : isNil (mapGet m "table") = true
    · simp only [h1, if_true]
      exact ⟨_, rfl⟩
    · simp only [h1, Bool.false_eq_true, if_false]
      by_cases h2 : isEmptyString (mapGet m "table") = true
      · simp only [h2, if_true]
        exact ⟨_, rfl⟩
      · simp only [h2, Bool.false_eq_true, if_false]
        rcases hshape with hnil | hempty | ⟨f, hf⟩
        · simp only [hnil, isNil, if_true]
          exact ⟨_, rfl⟩
        · simp only [hempty, isNil, isEmptyString, decide_True, Bool.false_eq_true, if_false,
            if_true]
          exact ⟨_, rfl⟩
        · simp only [hf, isNil, isEmptyString, Bool.false_eq_true, if_false, assertMap]
          by_cases h3 : f.length = 0
          · simp only [h3, if_true]
            exact ⟨_, rfl⟩
          · simp only [h3, if_false]
            cases hl : doValidations.fieldLoop pkg f with
            | none => simpa using ihr
            | some err => exact ⟨_, rfl⟩

/-- C11: `doValidations` reports the first failing check of the documented order and
nothing later. An error of the vault details is returned whatever the records are; with
valid vault details a `records` key that reads as nil gives RECORDS_KEY_NOT_FOUND and an
empty collection gives EMPTY_RECORDS; and when the records before a record are
well-formed and that record fails the documented per-record check (table present, table
non-empty, fields present, fields non-empty, field names non-empty, in this order), the
error returned is the one of the first check it fails, whatever the later records
are. -/
theorem doValidations_first_failure (pkg : Pkg) (insertApi : InsertApi) :
    (∀ e, pkg.isValidVaultDetails insertApi.Configuration = some e →
      doValidations pkg insertApi = Except.ok (some e)) ∧
    (pkg.isValidVaultDetails insertApi.Configuration = none →
      (mapGet insertApi.Records "records" = GoVal.nil →
        doValidations pkg insertApi =
          Except.ok (some (NewSkyflowError pkg.SdkErrorCode
            (Sprintf Message.RECORDS_KEY_NOT_FOUND [insertTag])))) ∧
      (mapGet insertApi.Records "records" = GoVal.slice [] →
        doValidations pkg insertApi =
          Except.ok (some (NewSkyflowError pkg.SdkErrorCode
            (Sprintf Message.EMPTY_RECORDS [insertTag])))) ∧
      (∀ (pre post : List GoVal) (m : GoMap) (msg : Message),
        mapGet insertApi.Records "records" = GoVal.slice (pre ++ GoVal.map m :: post) →
        (∀ record ∈ pre, WellFormedRecord record) →
        (mapGet m "fields" = GoVal.nil ∨ ∃ f, mapGet m "fields" = GoVal.map f) →
        documentedRecordCheck m = some msg →
        doValidations pkg insertApi =
          Except.ok (some (NewSkyflowError pkg.SdkErrorCode (Sprintf msg [insertTag]))))) := by
  refine ⟨?_, ?_⟩
  · intro e he
    simp only [doValidations, he]
  · intro hvault
    refine ⟨doValidations_no_records pkg insertApi hvault,
      doValidations_empty_records pkg insertApi hvault, ?_⟩
    intro pre post m msg hrecords hpre hshape hcheck
    have hrun : doValidations pkg insertApi =
        doValidations.recordLoop pkg (GoVal.map m :: post) := by
      cases pre with
      | nil =>
        exact doValidations_of_slice pkg insertApi _ _ hvault hrecords
      | cons record rest =>
        rw [doValidations_of_slice pkg insertApi record (rest ++ GoVal.map m :: post) hvault
          hrecords]
        exact recordLoop_wellFormed_append pkg (record :: rest) _ hpre
    rw [hrun]
    exact recordLoop_documented pkg m post msg hshape hcheck

/-- C11, at two inputs: without vault details the vault error comes first although the
`records` value is a string; and in `[rawA, {fields: {}}, {table: ""}]` the error is
MISSING_TABLE, the first failing check of the first malformed record. -/
theorem doValidations_first_failure_witness :
    doValidations strictPkg (noVaultApi [("records", GoVal.str "oops")]) =
      Except.ok (some (NewSkyflowError "400" (Sprintf Message.EMPTY_VAULT_ID ["Insert"]))) ∧
    doValidations samplePkg (sampleApi [("records", GoVal.slice [rawA,
        GoVal.map [("fields", GoVal.map [])], GoVal.map [("table", GoVal.str "")]])] false) =
      Except.ok (some (NewSkyflowError "400" (Sprintf Message.MISSING_TABLE ["Insert"]))) :=
  ⟨(doValidations_first_failure strictPkg (noVaultApi [("records", GoVal.str "oops")])).1
      _ rfl,
    ((doValidations_first_failure samplePkg (sampleApi [("records", GoVal.slice [rawA,
        GoVal.map [("fields", GoVal.map [])], GoVal.map [("table", GoVal.str "")]])] false)).2
      rfl).2.2 [rawA] [GoVal.map [("table", GoVal.str "")]] [("fields", GoVal.map [])]
      Message.MISSING_TABLE rfl rawA_wellFormed (Or.inr ⟨[], rfl⟩) rfl⟩

/-- C12 (counterexample): with valid vault details, `doValidations` panics with a
failed type assertion on a `records` value that is a string, on a record that is a
string, and on a record whose `fields` is a non-empty string. -/
theorem doValidations_type_assertion_panics :
    doValidations samplePkg (sampleApi [("records", GoVal.str "oops")] false) =
      Except.error Panic.typeAssertion ∧
    doValidations samplePkg (sampleApi [("records", GoVal.slice [GoVal.str "oops"])] false) =
      Except.error Panic.typeAssertion ∧
    doValidations samplePkg
        (inputWith [("table", GoVal.str "person"), ("fields", GoVal.str "oops")]) =
      Except.error Panic.typeAssertion :=
  ⟨rfl, rfl, rfl⟩

/-- C12 (amended): for every raw insert input whose `records` value reads as nil or is
a sequence of mappings in each of which `fields` is absent, the empty string or a
mapping (the `table` values are of any shape), `doValidations` returns either success or
a validation error; it does not panic. -/
theorem doValidations_no_panic (pkg : Pkg) (insertApi : InsertApi)
    (hrecords : mapGet insertApi.Records "records" = GoVal.nil ∨
      ∃ records, mapGet insertApi.Records "records" = GoVal.slice records ∧
        ∀ record ∈ records, ∃ m, record = GoVal.map m ∧ FieldsShape (mapGet m "fields")) :
    doValidations pkg insertApi = Except.ok none ∨
      ∃ e, doValidations pkg insertApi = Except.ok (some e) := by
  have htotal : ∃ outcome, doValidations pkg insertApi = Except.ok outcome := by
    cases hv : pkg.isValidVaultDetails insertApi.Configuration with
    | some e => exact ⟨some e, by simp only [doValidations, hv]⟩
    | none =>
      rcases hrecords with hnil | ⟨records, hslice, hall⟩
      · exact ⟨_, doValidations_no_records pkg insertApi hv hnil⟩
      · cases records with
        | nil => exact ⟨_, doValidations_empty_records pkg insertApi hv hslice⟩
        | cons record rest =>
          rw [doValidations_of_slice pkg insertApi record rest hv hslice]
          exact recordLoop_total pkg _ hall
  obtain ⟨outcome, h⟩ := htotal
  cases outcome with
  | none => exact Or.inl h
  | some e => exact Or.inr ⟨e, h⟩

/-- C12 (amended), at the input `[rawA, {table: 7, fields: ""}]`: the table is a number,
the fields value the empty string, and the outcome is the EMPTY_FIELDS error. -/
theorem doValidations_no_panic_witness :
    (mapGet (inputWith [("table", GoVal.num 7), ("fields", GoVal.str "")]).Records "records" =
        GoVal.nil ∨
      ∃ records, mapGet (inputWith [("table", GoVal.num 7), ("fields", GoVal.str "")]).Records
          "records" = GoVal.slice records ∧
        ∀ record ∈ records, ∃ m, record = GoVal.map m ∧ FieldsShape (mapGet m "fields")) ∧
    (doValidations samplePkg (inputWith [("table", GoVal.num 7), ("fields", GoVal.str "")]) =
        Except.ok none ∨
      ∃ e, doValidations samplePkg
        (inputWith [("table", GoVal.num 7), ("fields", GoVal.str "")]) = Except.ok (some e)) ∧
    doValidations samplePkg (inputWith [("table", GoVal.num 7), ("fields", GoVal.str "")]) =
      Except.ok (some (NewSkyflowError "400" (Sprintf Message.EMPTY_FIELDS ["Insert"]))) :=
  have hshape : mapGet (inputWith [("table", GoVal.num 7), ("fields", GoVal.str "")]).Records
        "records" = GoVal.nil ∨
      ∃ records, mapGet (inputWith [("table", GoVal.num 7), ("fields", GoVal.str "")]).Records
          "records" = GoVal.slice records ∧
        ∀ record ∈ records, ∃ m, record = GoVal.map m ∧ FieldsShape (mapGet m "fields") :=
    Or.inr ⟨_, rfl, by
      intro record hmem
      rcases List.mem_cons.mp hmem with rfl | hmem
      · exact ⟨_, rfl, Or.inr (Or.inr ⟨_, rfl⟩)⟩
      · rw [List.mem_singleton] at hmem
        subst hmem
        exact ⟨_, rfl, Or.inr (Or.inl rfl)⟩⟩
  ⟨hshape,
    doValidations_no_panic samplePkg
      (inputWith [("table", GoVal.num 7), ("fields", GoVal.str "")]) hshape,
    rfl⟩

/-! ## Request construction and reconciliation: claims C17, C18, C19 -/

theorem tokensBody_indices (responseJson : List GoVal) (inputRecords : List SingleRecord)
    (recordsArray : List GoVal) (i : Nat) :
    buildResponse.tokensBody responseJson inputRecords recordsArray i =
      (do
        let skyflowIDsObject ← sliceIndex responseJson
          (buildResponse.idsIndex responseJson.length i) >>= assertMap
        let skyflowIDs ← assertSlice (mapGet skyflowIDsObject "records")
        let skyflowID := mapGet (← sliceIndex skyflowIDs 0 >>= assertMap) "skyflow_id"
        let record ← sliceIndex responseJson i >>= assertMap
        let inputRecord ← sliceIndex inputRecords
          (buildResponse.inputIndex responseJson.length i)
        let record := mapSet record "table" (GoVal.str inputRecord.Table)
        let fields ← assertMap (mapGet record "fields")
        let fields := mapSet fields "skyflow_id" skyflowID
        let record := mapSet record "fields" (GoVal.map fields)
        return recordsArray ++ [GoVal.map record]) := rfl

theorem sliceIndex_ok_iff {α : Type} (xs : List α) (k : Int) :
    (∃ x, sliceIndex xs k = Except.ok x) ↔ InRange xs.length k := by
  unfold sliceIndex InRange
  by_cases hk : k < 0
  · simp only [hk, if_true]
    constructor
    · rintro ⟨x, hx⟩; cases hx
    · rintro ⟨h0, _⟩; omega
  · simp only [hk, if_false]
    cases hget : xs[k.toNat]? with
    | none =>
      have hlen : xs.length ≤ k.toNat := List.getElem?_eq_none_iff.mp hget
      constructor
      · rintro ⟨x, hx⟩; cases hx
      · rintro ⟨_, h1⟩; omega
    | some x =>
      have hlen : k.toNat < xs.length := (List.getElem?_eq_some_iff.mp hget).1
      constructor
      · intro _; constructor <;> omega
      · intro _; exact ⟨x, rfl⟩

/-- C17: in the tokens branch of `buildResponse`, for a response of length L and at
least L/2 input records, every index computed for i from L/2 to L-1 (the one into the
response and the one into the input records) is in range if and only if L is even; for
L = 2N both indices equal i - N, and as i runs over N..2N-1 they take the values
0, 1, .., N-1 in this order, each once. -/
theorem buildResponse_indices (len inputs : Nat) (hinputs : len / 2 ≤ inputs) :
    ((∀ i : Nat, len / 2 ≤ i → i < len →
        InRange len (buildResponse.idsIndex len i) ∧
        InRange inputs (buildResponse.inputIndex len i)) ↔ len % 2 = 0) ∧
    (∀ n : Nat, len = 2 * n →
      (∀ i : Nat, n ≤ i → i < 2 * n →
        buildResponse.idsIndex len i = (i : Int) - n ∧
        buildResponse.inputIndex len i = (i : Int) - n) ∧
      (List.range' n n).map (fun i : Nat => buildResponse.idsIndex len i) =
        (List.range n).map (fun j : Nat => (j : Int)) ∧
      (List.range' n n).map (fun i : Nat => buildResponse.inputIndex len i) =
        (List.range n).map (fun j : Nat => (j : Int))) := by
  refine ⟨⟨?_, ?_⟩, ?_⟩
  · intro h
    by_contra hodd
    have hlt : len / 2 < len := by omega
    obtain ⟨⟨h0, _⟩, _⟩ := h (len / 2) (Nat.le_refl _) hlt
    unfold buildResponse.idsIndex at h0
    omega
  · intro heven i hlo hhi
    unfold InRange buildResponse.idsIndex buildResponse.inputIndex
    refine ⟨⟨?_, ?_⟩, ?_, ?_⟩ <;> omega
  · intro n hn
    subst hn
    have hpoint : ∀ i : Nat, n ≤ i → i < 2 * n →
        buildResponse.idsIndex ((2 * n : Nat) : Int) i = (i : Int) - n ∧
        buildResponse.inputIndex ((2 * n : Nat) : Int) i = (i : Int) - n := by
      intro i _ _
      unfold buildResponse.idsIndex buildResponse.inputIndex
      constructor <;> omega
    refine ⟨hpoint, ?_, ?_⟩
    · apply List.ext_getElem?
      intro j
      by_cases hj : j < n
      · simp only [List.getElem?_map, List.getElem?_range' _ _ hj, List.getElem?_range hj,
          Option.map_some', Option.some.injEq, buildResponse.idsIndex]
        omega
      · have hj' : n ≤ j := Nat.le_of_not_lt hj
        rw [List.getElem?_eq_none (by simpa using hj'), List.getElem?_eq_none (by simpa using hj')]
    · apply List.ext_getElem?
      intro j
      by_cases hj : j < n
      · simp only [List.getElem?_map, List.getElem?_range' _ _ hj, List.getElem?_range hj,
          Option.map_some', Option.some.injEq, buildResponse.inputIndex]
        omega
      · have hj' : n ≤ j := Nat.le_of_not_lt hj
        rw [List.getElem?_eq_none (by simpa using hj'), List.getElem?_eq_none (by simpa using hj')]

/-- C17, at a response of length 4 with 2 input records. -/
theorem buildResponse_indices_witness :
    4 / 2 ≤ 2 ∧
    ((∀ i : Nat, 4 / 2 ≤ i → i < 4 →
        InRange 4 (buildResponse.idsIndex (4 : Nat) i) ∧
        InRange 2 (buildResponse.inputIndex (4 : Nat) i)) ↔ 4 % 2 = 0) ∧
    (List.range' 2 2).map (fun i : Nat => buildResponse.idsIndex (4 : Nat) i) =
      (List.range 2).map (fun j : Nat => (j : Int)) :=
  ⟨by decide, (buildResponse_indices 4 2 (by decide)).1,
    ((buildResponse_indices 4 2 (by decide)).2 2 rfl).2.1⟩

/-- C18: with tokens enabled, for every N input records and every response of length 2N
whose entries 0..N-1 each hold a non-empty records sequence whose first element is an
object and whose entries N..2N-1 are objects each holding a fields mapping,
`buildResponse` returns exactly N records, where record i is response entry N+i with
table set to input record i's table and with fields.skyflow_id set to the skyflow_id of
the first inner record of response entry i (nil when that record has none); every other
key of entry N+i and every other key of its fields is unchanged. -/
theorem buildResponse_tokens_reconciles (insertApi : InsertApi) (responseJson : List GoVal)
    (requestRecords : InsertRecord) (n : Nat) (hTokens : insertApi.Options.Tokens = true)
    (hn : requestRecords.Records.length = n) (hlen : responseJson.length = 2 * n)
    (hpost : ∀ i, i < n → ∃ entry first rest,
      responseJson[i]? = some (GoVal.map entry) ∧
      mapGet entry "records" = GoVal.slice (GoVal.map first :: rest))
    (hget : ∀ i, i < n → ∃ g fl,
      responseJson[n + i]? = some (GoVal.map g) ∧ mapGet g "fields" = GoVal.map fl) :
    ∃ out, buildResponse insertApi responseJson requestRecords =
        Except.ok [("records", GoVal.slice out)] ∧
      out.length = n ∧
      ∀ i, i < n → ∃ r entry first rest g fl reconciled newFields,
        requestRecords.Records[i]? = some r ∧
        responseJson[i]? = some (GoVal.map entry) ∧
        mapGet entry "records" = GoVal.slice (GoVal.map first :: rest) ∧
        responseJson[n + i]? = some (GoVal.map g) ∧ mapGet g "fields" = GoVal.map fl ∧
        out[i]? = some (GoVal.map reconciled) ∧
        mapGet reconciled "table" = GoVal.str r.Table ∧
        mapGet reconciled "fields" = GoVal.map newFields ∧
        mapGet newFields "skyflow_id" = mapGet first "skyflow_id" ∧
        (∀ k, k ≠ "skyflow_id" → mapGet newFields k = mapGet fl k) ∧
        (∀ k, k ≠ "table" → k ≠ "fields" → mapGet reconciled k = mapGet g k) := by
  obtain ⟨out, hout, hl, hall⟩ := buildResponse_tokens_spec insertApi responseJson
    requestRecords n hTokens hn hlen hpost hget
  refine ⟨out, hout, hl, ?_⟩
  intro i hi
  obtain ⟨r, entry, first, rest, g, fl, hr, he, hf, hg, hfl, ho⟩ := hall i hi
  refine ⟨r, entry, first, rest, g, fl, _, mapSet fl "skyflow_id" (mapGet first "skyflow_id"),
    hr, he, hf, hg, hfl, ho, ?_, ?_, ?_, ?_, ?_⟩
  · rw [mapGet_mapSet_other _ _ _ _ (by decide), mapGet_mapSet_same]
  · rw [mapGet_mapSet_same]
  · rw [mapGet_mapSet_same]
  · intro k hk
    exact mapGet_mapSet_other _ _ _ _ (Ne.symm hk)
  · intro k hk1 hk2
    rw [mapGet_mapSet_other _ _ _ _ (Ne.symm hk2), mapGet_mapSet_other _ _ _ _ (Ne.symm hk1)]

/-- C18, at N = 2: insert results with identifiers "id-A", "id-B" followed by the
read-backs with (tokenized) names "A", "B". -/
theorem buildResponse_tokens_reconciles_witness :
    (sampleApi [] true).Options.Tokens = true ∧
    ∃ out, buildResponse (sampleApi [] true)
        [insertResult "id-A", insertResult "id-B",
         readBackResult [("name", GoVal.str "A")], readBackResult [("name", GoVal.str "B")]]
        { Records := [recA, recB] } = Except.ok [("records", GoVal.slice out)] ∧
      out.length = 2 ∧
      ∀ i, i < 2 → ∃ r entry first rest g fl reconciled newFields,
        [recA, recB][i]? = some r ∧
        [insertResult "id-A", insertResult "id-B",
         readBackResult [("name", GoVal.str "A")],
         readBackResult [("name", GoVal.str "B")]][i]? = some (GoVal.map entry) ∧
        mapGet entry "records" = GoVal.slice (GoVal.map first :: rest) ∧
        [insertResult "id-A", insertResult "id-B",
         readBackResult [("name", GoVal.str "A")],
         readBackResult [("name", GoVal.str "B")]][2 + i]? = some (GoVal.map g) ∧
        mapGet g "fields" = GoVal.map fl ∧
        out[i]? = some (GoVal.map reconciled) ∧
        mapGet reconciled "table" = GoVal.str r.Table ∧
        mapGet reconciled "fields" = GoVal.map newFields ∧
        mapGet newFields "skyflow_id" = mapGet first "skyflow_id" ∧
        (∀ k, k ≠ "skyflow_id" → mapGet newFields k = mapGet fl k) ∧
        (∀ k, k ≠ "table" → k ≠ "fields" → mapGet reconciled k = mapGet g k) :=
  ⟨rfl, buildResponse_tokens_reconciles (sampleApi [] true)
    [insertResult "id-A", insertResult "id-B",
     readBackResult [("name", GoVal.str "A")], readBackResult [("name", GoVal.str "B")]]
    { Records := [recA, recB] } 2 rfl rfl rfl
    (fun i hi =>
      match i, hi with
      | 0, _ => ⟨_, _, _, rfl, rfl⟩
      | 1, _ => ⟨_, _, _, rfl, rfl⟩)
    (fun i hi =>
      match i, hi with
      | 0, _ => ⟨_, _, rfl, rfl⟩
      | 1, _ => ⟨_, _, rfl, rfl⟩)⟩

theorem interleaved_getElem? (records : List SingleRecord) :
    ∀ (index i : Nat) (r : SingleRecord), records[i]? = some r →
      ((List.map (fun p : Nat × SingleRecord => [postOp p.2, getOp p.1 p.2])
        (List.enumFrom index records)).flatten)[2 * i]? = some (postOp r) ∧
      ((List.map (fun p : Nat × SingleRecord => [postOp p.2, getOp p.1 p.2])
        (List.enumFrom index records)).flatten)[2 * i + 1]? = some (getOp (index + i) r) := by
  induction records with
  | nil => intro index i r h; simp at h
  | cons value rest ih =>
    intro index i r h
    cases i with
    | zero =>
      simp only [List.getElem?_cons_zero, Option.some.injEq] at h
      subst h
      simp
    | succ j =>
      simp only [List.getElem?_cons_succ] at h
      obtain ⟨h1, h2⟩ := ih (index + 1) j r h
      have e1 : 2 * (j + 1) = (2 * j) + 1 + 1 := by omega
      have e2 : index + (j + 1) = index + 1 + j := by omega
      simp only [List.enumFrom_cons, List.map_cons, List.flatten_cons, List.cons_append,
        List.nil_append, e1, e2, List.getElem?_cons_succ]
      exact ⟨h1, h2⟩

/-- C19: with tokens enabled, for every list of N input records and every i < N,
`constructRequestBody` places the POST insert of record i (tableName, fields, quorum
true) at payload position 2i and the GET read-back of record i (method GET, the same
tableName, tokenization true, ID `$responses.<i>.records.0.skyflow_id` with i written in
decimal digits) at payload position 2i+1. -/
theorem constructRequestBody_tokens_positions (record : InsertRecord) (options : InsertOptions)
    (hTokens : options.Tokens = true) :
    ∃ payload, mapGet (constructRequestBody record options).1 "records" = GoVal.slice payload ∧
      ∀ (i : Nat) (hi : i < record.Records.length),
        (∃ op, payload[2 * i]? = some (GoVal.map op) ∧
          mapGet op "method" = GoVal.str "POST" ∧
          mapGet op "tableName" = GoVal.str (record.Records[i]).Table ∧
          mapGet op "fields" = GoVal.map (record.Records[i]).Fields ∧
          mapGet op "quorum" = GoVal.bool true) ∧
        (∃ op, payload[2 * i + 1]? = some (GoVal.map op) ∧
          mapGet op "method" = GoVal.str "GET" ∧
          mapGet op "tableName" = GoVal.str (record.Records[i]).Table ∧
          mapGet op "tokenization" = GoVal.bool true ∧
          mapGet op "ID" = GoVal.str
            ("$responses." ++ (Nat.toDigits 10 i).asString ++ ".records.0.skyflow_id")) := by
  refine ⟨constructRequestBody.loop options 0 record.Records [], rfl, ?_⟩
  intro i hi
  have hloop := constructRequestBody_loop_eq options record.Records 0 []
  simp only [hTokens, if_true, List.nil_append] at hloop
  obtain ⟨h1, h2⟩ := interleaved_getElem? record.Records 0 i (record.Records[i])
    (List.getElem?_eq_getElem hi)
  rw [Nat.zero_add] at h2
  rw [hloop]
  exact ⟨⟨_, h1, rfl, rfl, rfl, rfl⟩, ⟨_, h2, rfl, rfl, rfl, rfl⟩⟩

/-- C19, at the records A and B: the payload is POST A, GET A, POST B, GET B, with the
back-references `$responses.0...` and `$responses.1...`. -/
theorem constructRequestBody_tokens_positions_witness :
    ({ Tokens := true } : InsertOptions).Tokens = true ∧
    (∃ payload, mapGet (constructRequestBody { Records := [recA, recB] } { Tokens := true }).1
        "records" = GoVal.slice payload ∧
      ∀ (i : Nat) (hi : i < [recA, recB].length),
        (∃ op, payload[2 * i]? = some (GoVal.map op) ∧
          mapGet op "method" = GoVal.str "POST" ∧
          mapGet op "tableName" = GoVal.str ([recA, recB][i]).Table ∧
          mapGet op "fields" = GoVal.map ([recA, recB][i]).Fields ∧
          mapGet op "quorum" = GoVal.bool true) ∧
        (∃ op, payload[2 * i + 1]? = some (GoVal.map op) ∧
          mapGet op "method" = GoVal.str "GET" ∧
          mapGet op "tableName" = GoVal.str ([recA, recB][i]).Table ∧
          mapGet op "tokenization" = GoVal.bool true ∧
          mapGet op "ID" = GoVal.str
            ("$responses." ++ (Nat.toDigits 10 i).asString ++ ".records.0.skyflow_id"))) ∧
    mapGet (constructRequestBody { Records := [recA, recB] } { Tokens := true }).1 "records" =
      GoVal.slice [
        GoVal.map [("tableName", GoVal.str "person"),
          ("fields", GoVal.map [("name", GoVal.str "A")]), ("method", GoVal.str "POST"),
          ("quorum", GoVal.bool true)],
        GoVal.map [("method", GoVal.str "GET"), ("tableName", GoVal.str "person"),
          ("ID", GoVal.str "$responses.0.records.0.skyflow_id"),
          ("tokenization", GoVal.bool true)],
        GoVal.map [("tableName", GoVal.str "person"),
          ("fields", GoVal.map [("name", GoVal.str "B")]), ("method", GoVal.str "POST"),
          ("quorum", GoVal.bool true)],
        GoVal.map [("method", GoVal.str "GET"), ("tableName", GoVal.str "person"),
          ("ID", GoVal.str "$responses.1.records.0.skyflow_id"),
          ("tokenization", GoVal.bool true)]] :=
  ⟨rfl,
    constructRequestBody_tokens_positions { Records := [recA, recB] } { Tokens := true } rfl,
    rfl⟩

/-! ## When buildResponse returns: claim C13 -/

theorem bind_ok_iff {α β : Type} (x : Except Panic α) (f : α → Except Panic β) (b : β) :
    (x >>= f) = Except.ok b ↔ ∃ a, x = Except.ok a ∧ f a = Except.ok b := by
  cases x with
  | error p =>
    constructor
    · intro h; cases h
    · rintro ⟨a, ha, _⟩; cases ha
  | ok a =>
    constructor
    · intro h; exact ⟨a, rfl, h⟩
    · rintro ⟨a', ha, h⟩
      cases ha
      exact h

theorem bind_error_iff {α β : Type} (x : Except Panic α) (f : α → Except Panic β) (p : Panic) :
    (x >>= f) = Except.error p ↔
      x = Except.error p ∨ ∃ a, x = Except.ok a ∧ f a = Except.error p := by
  cases x with
  | error q =>
    constructor
    · intro h
      have h1 : (Except.error q : Except Panic β) = Except.error p := h
      simp only [Except.error.injEq] at h1
      exact Or.inl (by rw [h1])
    · rintro (h | ⟨a, ha, _⟩)
      · simp only [Except.error.injEq] at h
        rw [h]
        rfl
      · cases ha
  | ok a =>
    constructor
    · intro h; exact Or.inr ⟨a, rfl, h⟩
    · rintro (h | ⟨a', ha, h⟩)
      · cases h
      · cases ha
        exact h

theorem sliceIndex_ok {α : Type} (xs : List α) (k : Int) (x : α) :
    sliceIndex xs k = Except.ok x ↔ 0 ≤ k ∧ xs[k.toNat]? = some x := by
  unfold sliceIndex
  by_cases hk : k < 0
  · simp only [hk, if_true]
    constructor
    · intro h; cases h
    · rintro ⟨h0, _⟩; omega
  · simp only [hk, if_false]
    have h0 : 0 ≤ k := by omega
    cases hget : xs[k.toNat]? with
    | none => simp
    | some y => simp [h0]

theorem sliceIndex_error {α : Type} (xs : List α) (k : Int) (p : Panic)
    (h : sliceIndex xs k = Except.error p) : p = Panic.indexOutOfRange := by
  unfold sliceIndex at h
  by_cases hk : k < 0
  · simp only [hk, if_true, Except.error.injEq] at h
    exact h.symm
  · simp only [hk, if_false] at h
    cases hget : xs[k.toNat]? with
    | none =>
      rw [hget] at h
      simp only [Except.error.injEq] at h
      exact h.symm
    | some y =>
      rw [hget] at h
      cases h

theorem assertMap_ok (v : GoVal) (m : GoMap) : assertMap v = Except.ok m ↔ v = GoVal.map m := by
  cases v <;> simp [assertMap]

theorem assertSlice_ok (v : GoVal) (xs : List GoVal) :
    assertSlice v = Except.ok xs ↔ v = GoVal.slice xs := by
  cases v <;> simp [assertSlice]

theorem assertMap_error (v : GoVal) (p : Panic) (h : assertMap v = Except.error p) :
    p = Panic.typeAssertion := by
  cases v <;> simp [assertMap] at h <;> exact h.symm

theorem assertSlice_error (v : GoVal) (p : Panic) (h : assertSlice v = Except.error p) :
    p = Panic.typeAssertion := by
  cases v <;> simp [assertSlice] at h <;> exact h.symm

theorem forLoop_ok_iff (body : List GoVal → Nat → Except Panic (List GoVal)) (Q : Nat → Prop)
    (hbody : ∀ acc i, (∃ x, body acc i = Except.ok x) ↔ Q i) :
    ∀ (n lo : Nat) (acc : List GoVal),
      (∃ out, forLoop body lo n acc = Except.ok out) ↔ ∀ j, j < n → Q (lo + j) := by
  intro n
  induction n with
  | zero =>
    intro lo acc
    constructor
    · intro _ j hj; exact absurd hj (Nat.not_lt_zero j)
    · intro _; exact ⟨acc, rfl⟩
  | succ n ih =>
    intro lo acc
    rw [forLoop]
    cases hb : body acc lo with
    | error p =>
      constructor
      · rintro ⟨out, hout⟩; cases hout
      · intro h
        have hq : Q lo := by simpa using h 0 (Nat.succ_pos n)
        obtain ⟨x, hx⟩ := (hbody acc lo).mpr hq
        rw [hb] at hx
        cases hx
    | ok acc1 =>
      simp only
      rw [ih (lo + 1) acc1]
      constructor
      · intro h j hj
        cases j with
        | zero => exact (hbody acc lo).mp ⟨acc1, hb⟩
        | succ j =>
          have := h j (Nat.lt_of_succ_lt_succ hj)
          have e : lo + (j + 1) = lo + 1 + j := by omega
          rw [e]; exact this
      · intro h j hj
        have := h (j + 1) (Nat.succ_lt_succ hj)
        have e : lo + (j + 1) = lo + 1 + j := by omega
        rw [e] at this; exact this

theorem forLoop_error (body : List GoVal → Nat → Except Panic (List GoVal)) (p : Panic) :
    ∀ (n lo : Nat) (acc : List GoVal), forLoop body lo n acc = Except.error p →
      ∃ acc1 i, body acc1 i = Except.error p := by
  intro n
  induction n with
  | zero => intro lo acc h; cases h
  | succ n ih =>
    intro lo acc h
    rw [forLoop] at h
    cases hb : body acc lo with
    | error q =>
      rw [hb] at h
      simp only [Except.error.injEq] at h
      subst h
      exact ⟨acc, lo, hb⟩
    | ok acc1 =>
      rw [hb] at h
      exact ih (lo + 1) acc1 h

theorem plainBody_ok_iff (responseJson : List GoVal) (inputRecords : List SingleRecord)
    (acc : List GoVal) (i : Nat) :
    (∃ x, buildResponse.plainBody responseJson inputRecords acc i = Except.ok x) ↔
      i < inputRecords.length ∧ ∃ e, responseJson[i]? = some e ∧ HasFirstRecord e := by
  simp only [buildResponse.plainBody, bind_ok_iff, sliceIndex_ok, assertMap_ok, assertSlice_ok,
    pure, Except.pure, Except.ok.injEq, Int.toNat_ofNat, Int.toNat_zero, HasFirstRecord]
  constructor
  · rintro ⟨x, r, ⟨_, hr⟩, xs, ⟨m, ⟨e, ⟨_, he⟩, rfl⟩, hm⟩, first, ⟨v, ⟨_, hv⟩, rfl⟩, _⟩
    refine ⟨(List.getElem?_eq_some_iff.mp hr).1, _, he, m, first, xs.tail, rfl, ?_⟩
    cases xs with
    | nil => simp at hv
    | cons y ys =>
      simp only [List.getElem?_cons_zero, Option.some.injEq] at hv
      rw [hm, hv]
      rfl
  · rintro ⟨hi, e, he, m, first, rest, rfl, hm⟩
    exact ⟨_, inputRecords[i], ⟨Int.ofNat_nonneg i, List.getElem?_eq_getElem hi⟩, _,
      ⟨m, ⟨_, ⟨Int.ofNat_nonneg i, he⟩, rfl⟩, hm⟩, first,
      ⟨_, ⟨Int.le_refl 0, List.getElem?_cons_zero⟩, rfl⟩, rfl⟩

theorem tokensBody_ok_iff (responseJson : List GoVal) (inputRecords : List SingleRecord)
    (acc : List GoVal) (i : Nat) :
    (∃ x, buildResponse.tokensBody responseJson inputRecords acc i = Except.ok x) ↔
      0 ≤ buildResponse.idsIndex responseJson.length i ∧
      0 ≤ buildResponse.inputIndex responseJson.length i ∧
      (buildResponse.inputIndex responseJson.length i).toNat < inputRecords.length ∧
      (∃ e, responseJson[(buildResponse.idsIndex responseJson.length i).toNat]? = some e ∧
        HasFirstRecord e) ∧
      ∃ e, responseJson[i]? = some e ∧ HasFields e := by
  rw [tokensBody_indices]
  simp only [bind_ok_iff, sliceIndex_ok, assertMap_ok, assertSlice_ok,
    pure, Except.pure, Except.ok.injEq, Int.toNat_ofNat, Int.toNat_zero, HasFirstRecord,
    HasFields, mapGet_mapSet_other _ _ _ _ (show "table" ≠ "fields" by decide)]
  constructor
  · rintro ⟨x, m, ⟨e, ⟨h0, he⟩, rfl⟩, xs, hm, first, ⟨v, ⟨_, hv⟩, rfl⟩, g, ⟨e2, ⟨_, he2⟩, rfl⟩,
      r, ⟨h1, hr⟩, fl, hfl, _⟩
    refine ⟨h0, h1, (List.getElem?_eq_some_iff.mp hr).1, ⟨_, he, m, first, xs.tail, rfl, ?_⟩,
      ⟨_, he2, g, fl, rfl, hfl⟩⟩
    cases xs with
    | nil => simp at hv
    | cons y ys =>
      simp only [List.getElem?_cons_zero, Option.some.injEq] at hv
      rw [hm, hv]
      rfl
  · rintro ⟨h0, h1, hlt, ⟨e, he, m, first, rest, rfl, hm⟩, ⟨e2, he2, g, fl, rfl, hfl⟩⟩
    exact ⟨_, m, ⟨_, ⟨h0, he⟩, rfl⟩, _, hm, first,
      ⟨_, ⟨Int.le_refl 0, List.getElem?_cons_zero⟩, rfl⟩, g,
      ⟨_, ⟨Int.ofNat_nonneg i, he2⟩, rfl⟩, _, ⟨h1, List.getElem?_eq_getElem hlt⟩, fl, hfl, rfl⟩

theorem sliceIndex_not_nilDereference {α : Type} (xs : List α) (k : Int) :
    sliceIndex xs k = Except.error Panic.nilDereference ↔ False := by
  constructor
  · intro h
    have := sliceIndex_error xs k _ h
    cases this
  · intro h; exact absurd h id

theorem assertMap_not_nilDereference (v : GoVal) :
    assertMap v = Except.error Panic.nilDereference ↔ False := by
  constructor
  · intro h
    have := assertMap_error v _ h
    cases this
  · intro h; exact absurd h id

theorem assertSlice_not_nilDereference (v : GoVal) :
    assertSlice v = Except.error Panic.nilDereference ↔ False := by
  constructor
  · intro h
    have := assertSlice_error v _ h
    cases this
  · intro h; exact absurd h id

theorem plainBody_error (responseJson : List GoVal) (inputRecords : List SingleRecord)
    (acc : List GoVal) (i : Nat) (p : Panic)
    (h : buildResponse.plainBody responseJson inputRecords acc i = Except.error p) :
    p = Panic.typeAssertion ∨ p = Panic.indexOutOfRange := by
  cases p with
  | typeAssertion => exact Or.inl rfl
  | indexOutOfRange => exact Or.inr rfl
  | nilDereference =>
    exfalso
    simp [buildResponse.plainBody, bind_error_iff, sliceIndex_not_nilDereference,
      assertMap_not_nilDereference, assertSlice_not_nilDereference, pure, Except.pure] at h

theorem tokensBody_error (responseJson : List GoVal) (inputRecords : List SingleRecord)
    (acc : List GoVal) (i : Nat) (p : Panic)
    (h : buildResponse.tokensBody responseJson inputRecords acc i = Except.error p) :
    p = Panic.typeAssertion ∨ p = Panic.indexOutOfRange := by
  cases p with
  | typeAssertion => exact Or.inl rfl
  | indexOutOfRange => exact Or.inr rfl
  | nilDereference =>
    exfalso
    simp [buildResponse.tokensBody, bind_error_iff, sliceIndex_not_nilDereference,
      assertMap_not_nilDereference, assertSlice_not_nilDereference, pure, Except.pure] at h

theorem buildResponse_error_kind (insertApi : InsertApi) (responseJson : List GoVal)
    (requestRecords : InsertRecord) (p : Panic)
    (h : buildResponse insertApi responseJson requestRecords = Except.error p) :
    p = Panic.typeAssertion ∨ p = Panic.indexOutOfRange := by
  unfold buildResponse at h
  cases hT : insertApi.Options.Tokens
  · simp only [hT, Bool.false_eq_true, if_false, bind_error_iff, pure, Except.pure] at h
    rcases h with h | ⟨a, _, h⟩
    · obtain ⟨acc1, i, hb⟩ := forLoop_error _ p _ _ _ h
      exact plainBody_error _ _ _ _ p hb
    · cases h
  · simp only [hT, if_true, bind_error_iff, pure, Except.pure] at h
    rcases h with h | ⟨a, _, h⟩
    · obtain ⟨acc1, i, hb⟩ := forLoop_error _ p _ _ _ h
      exact tokensBody_error _ _ _ _ p hb
    · cases h

theorem buildResponse_ok_iff_loop (insertApi : InsertApi) (responseJson : List GoVal)
    (requestRecords : InsertRecord) :
    (∃ result, buildResponse insertApi responseJson requestRecords = Except.ok result) ↔
      ∃ out, (if insertApi.Options.Tokens then
          forLoop (buildResponse.tokensBody responseJson requestRecords.Records)
            (responseJson.length / 2) (responseJson.length - responseJson.length / 2) []
        else
          forLoop (buildResponse.plainBody responseJson requestRecords.Records)
            0 responseJson.length []) = Except.ok out := by
  cases hT : insertApi.Options.Tokens
  · simp only [buildResponse, hT, Bool.false_eq_true, if_false, bind_ok_iff, pure, Except.pure,
      Except.ok.injEq]
    constructor
    · rintro ⟨result, out, h, _⟩; exact ⟨out, h⟩
    · rintro ⟨out, h⟩; exact ⟨_, out, h, rfl⟩
  · simp only [buildResponse, hT, if_true, bind_ok_iff, pure, Except.pure, Except.ok.injEq]
    constructor
    · rintro ⟨result, out, h, _⟩; exact ⟨out, h⟩
    · rintro ⟨out, h⟩; exact ⟨_, out, h, rfl⟩

/-- C13 (counterexample): `buildResponse` panics with a failed type assertion on an
entry without a `records` key, and with an index out of range on a response longer than
the input records (tokens disabled) and on a response of odd length (tokens
enabled). -/
theorem buildResponse_malformed_panics :
    buildResponse (sampleApi [] false) [GoVal.map []] { Records := [recA] } =
      Except.error Panic.typeAssertion ∧
    buildResponse (sampleApi [] false)
        [postEcho [("name", GoVal.str "A")], postEcho [("name", GoVal.str "B")]]
        { Records := [recA] } = Except.error Panic.indexOutOfRange ∧
    buildResponse (sampleApi [] true) [insertResult "id-A"] { Records := [recA] } =
      Except.error Panic.indexOutOfRange :=
  ⟨rfl, rfl, rfl⟩

/-- C13 (amended): `buildResponse` has no error result. With tokens disabled it returns
exactly when the response has at most as many entries as there are input records and
every entry holds a non-empty records sequence whose first element is an object; with
tokens enabled it returns exactly when the response has even length 2K with K at most
the number of input records, every entry i < K holds such a records sequence and every
entry K+i is an object holding a fields mapping. In every other case it panics, with a
failed type assertion or an index out of range. -/
theorem buildResponse_returns_iff (insertApi : InsertApi) (responseJson : List GoVal)
    (requestRecords : InsertRecord) :
    (insertApi.Options.Tokens = false →
      ((∃ result, buildResponse insertApi responseJson requestRecords = Except.ok result) ↔
        responseJson.length ≤ requestRecords.Records.length ∧
        ∀ e ∈ responseJson, HasFirstRecord e)) ∧
    (insertApi.Options.Tokens = true →
      ((∃ result, buildResponse insertApi responseJson requestRecords = Except.ok result) ↔
        responseJson.length % 2 = 0 ∧
        responseJson.length / 2 ≤ requestRecords.Records.length ∧
        ∀ i, i < responseJson.length / 2 →
          (∃ e, responseJson[i]? = some e ∧ HasFirstRecord e) ∧
          (∃ e, responseJson[responseJson.length / 2 + i]? = some e ∧ HasFields e))) ∧
    (∀ p, buildResponse insertApi responseJson requestRecords = Except.error p →
      p = Panic.typeAssertion ∨ p = Panic.indexOutOfRange) := by
  refine ⟨?_, ?_, fun p h => buildResponse_error_kind insertApi responseJson requestRecords p h⟩
  · intro hT
    rw [buildResponse_ok_iff_loop]
    simp only [hT, Bool.false_eq_true, if_false]
    rw [forLoop_ok_iff _ _ (plainBody_ok_iff responseJson requestRecords.Records)]
    constructor
    · intro h
      constructor
      · by_contra hgt
        have hpos : responseJson.length - 1 < responseJson.length := by omega
        have := (h _ hpos).1
        omega
      · intro e he
        obtain ⟨j, hj, hje⟩ := List.mem_iff_getElem.mp he
        obtain ⟨_, e1, he1, hfirst⟩ := h j hj
        rw [Nat.zero_add, List.getElem?_eq_getElem hj, Option.some.injEq] at he1
        rw [← hje, he1]
        exact hfirst
    · rintro ⟨hle, hall⟩ j hj
      rw [Nat.zero_add]
      exact ⟨by omega, responseJson[j], List.getElem?_eq_getElem hj,
        hall _ (List.getElem_mem hj)⟩
  · intro hT
    rw [buildResponse_ok_iff_loop]
    simp only [hT, if_true]
    rw [forLoop_ok_iff _ _ (tokensBody_ok_iff responseJson requestRecords.Records)]
    constructor
    · intro h
      have heven : responseJson.length % 2 = 0 := by
        by_contra hodd
        have hpos : 0 < responseJson.length - responseJson.length / 2 := by omega
        have h0 := (h 0 hpos).1
        unfold buildResponse.idsIndex at h0
        omega
      have hpoint : ∀ i, i < responseJson.length / 2 →
          buildResponse.idsIndex responseJson.length ((responseJson.length / 2 + i : Nat) : Int)
            = (i : Int) ∧
          buildResponse.inputIndex responseJson.length
            ((responseJson.length / 2 + i : Nat) : Int) = (i : Int) := by
        intro i _
        unfold buildResponse.idsIndex buildResponse.inputIndex
        constructor <;> omega
      refine ⟨heven, ?_, ?_⟩
      · by_contra hgt
        have hK : responseJson.length / 2 - 1 < responseJson.length / 2 := by omega
        have hj : responseJson.length / 2 - 1 <
            responseJson.length - responseJson.length / 2 := by omega
        obtain ⟨_, _, hlt, _, _⟩ := h _ hj
        rw [(hpoint _ hK).2, Int.toNat_ofNat] at hlt
        omega
      · intro i hi
        have hj : i < responseJson.length - responseJson.length / 2 := by omega
        obtain ⟨_, _, _, hfirst, hfields⟩ := h i hj
        rw [(hpoint i hi).1, Int.toNat_ofNat] at hfirst
        exact ⟨hfirst, hfields⟩
    · rintro ⟨heven, hle, hall⟩ j hj
      have hjK : j < responseJson.length / 2 := by omega
      have hids : buildResponse.idsIndex responseJson.length
          ((responseJson.length / 2 + j : Nat) : Int) = (j : Int) := by
        unfold buildResponse.idsIndex; omega
      have hinp : buildResponse.inputIndex responseJson.length
          ((responseJson.length / 2 + j : Nat) : Int) = (j : Int) := by
        unfold buildResponse.inputIndex; omega
      obtain ⟨hfirst, hfields⟩ := hall j hjK
      rw [hids, hinp, Int.toNat_ofNat]
      exact ⟨Int.ofNat_nonneg j, Int.ofNat_nonneg j, by omega, hfirst, hfields⟩

/-- C13 (amended), at two inputs: a response of one well-shaped entry for two input
records is reconciled (tokens disabled); a response of length 1 is not (tokens
enabled). -/
theorem buildResponse_returns_iff_witness :
    (∃ result, buildResponse (sampleApi [] false) [postEcho [("name", GoVal.str "A")]]
      { Records := [recA, recB] } = Except.ok result) ∧
    ¬ (∃ result, buildResponse (sampleApi [] true) [insertResult "id-A"]
      { Records := [recA] } = Except.ok result) :=
  ⟨((buildResponse_returns_iff (sampleApi [] false) [postEcho [("name", GoVal.str "A")]]
      { Records := [recA, recB] }).1 rfl).mpr
      ⟨by decide, by
        intro e he
        rw [List.mem_singleton] at he
        subst he
        exact ⟨_, _, _, rfl, rfl⟩⟩,
    fun h => absurd (((buildResponse_returns_iff (sampleApi [] true) [insertResult "id-A"]
      { Records := [recA] }).2.1 rfl).mp h).1 (by decide)⟩

/-! ## InsertApi.Post: claims C14, C15 -/

/-- C14 (counterexample): the response body parses as the object
`{error: null, responses: []}`, which contains an `error` key, and `Post` returns the
success result `{records: []}` with no error; on `{error: "boom"}` it returns nothing,
it panics with a failed type assertion. -/
theorem Post_error_key_success :
    InsertApi.Post samplePkg
        (sampleEnv
          (some { StatusCode := 200, Body := "\x7b\"error\": null, \"responses\": []\x7d" },
            none)
          (some [("error", GoVal.nil), ("responses", GoVal.slice [])]))
        oneRecordApi "token" =
      Except.ok (some [("records", GoVal.slice [])], none) ∧
    InsertApi.Post samplePkg
        (sampleEnv (some { StatusCode := 400, Body := "\x7b\"error\": \"boom\"\x7d" }, none)
          (some [("error", GoVal.str "boom")]))
        oneRecordApi "token" =
      Except.error Panic.typeAssertion :=
  ⟨rfl, rfl⟩

/-- C14 (amended): when the call reaches the vault (validation passes, the records
decode, the payload is serialised, the request is built, the transport returns a
response without error) and the response body parses as a JSON object whose `error`
value is itself an object, `Post` returns no result and an error whose code is the
vault-supplied `http_code` as `%v` prints it and whose message is the SERVER_ERROR text
formatted with the insert tag and the vault-supplied `message`. -/
theorem Post_vault_error (pkg : Pkg) (env : Env) (insertApi : InsertApi) (token : String)
    (insertRecord : InsertRecord) (requestBody : String) (request : Request) (res : Response)
    (result generatedError : GoMap)
    (hvalid : doValidations pkg insertApi = Except.ok none)
    (hdecode : env.toInsertRecord insertApi.Records = some insertRecord)
    (hmarshal : env.Marshal (constructRequestBody insertRecord insertApi.Options).1 =
      Except.ok requestBody)
    (hrequest : env.NewRequest "POST"
      (insertApi.Configuration.VaultURL ++ "/v1/vaults/" ++ insertApi.Configuration.VaultID)
      requestBody = some request)
    (hdo : env.ClientDo
      { request with header := request.header ++ [("Authorization", "Bearer " ++ token)] } =
      (some res, none))
    (hparse : env.Unmarshal res.Body = some result)
    (herror : mapGet result "error" = GoVal.map generatedError) :
    InsertApi.Post pkg env insertApi token =
      Except.ok (none, some (NewSkyflowError (env.format (mapGet generatedError "http_code"))
        (Sprintf Message.SERVER_ERROR
          [insertTag, env.format (mapGet generatedError "message")]))) := by
  have hbody : constructRequestBody insertRecord insertApi.Options =
      ((constructRequestBody insertRecord insertApi.Options).1, none) := rfl
  unfold InsertApi.Post
  rw [hvalid]
  simp only [hdecode]
  rw [hbody]
  simp only [hmarshal, hrequest, hdo, hparse, herror, isNil, Bool.not_false, if_true, assertMap]

/-- C14 (amended), at the body `{error: {http_code: 404, message: "not found"}}`: the
error has code "404" and the SERVER_ERROR message with "not found". -/
theorem Post_vault_error_witness :
    doValidations samplePkg oneRecordApi = Except.ok none ∧
    InsertApi.Post samplePkg
        (sampleEnv (some { StatusCode := 404, Body := "body" }, none)
          (some [("error", GoVal.map [("http_code", GoVal.num 404),
            ("message", GoVal.str "not found")])]))
        oneRecordApi "token" =
      Except.ok (none, some (NewSkyflowError "404"
        (Sprintf Message.SERVER_ERROR ["Insert", "not found"]))) :=
  ⟨rfl,
    Post_vault_error samplePkg
      (sampleEnv (some { StatusCode := 404, Body := "body" }, none)
        (some [("error", GoVal.map [("http_code", GoVal.num 404),
          ("message", GoVal.str "not found")])]))
      oneRecordApi "token" { Records := [recA] } "payload"
      { method := "POST", url := "https://vault.example/v1/vaults/vault", body := "payload",
        header := [], query := [] }
      { StatusCode := 404, Body := "body" }
      [("error", GoVal.map [("http_code", GoVal.num 404), ("message", GoVal.str "not found")])]
      [("http_code", GoVal.num 404), ("message", GoVal.str "not found")]
      rfl rfl rfl rfl rfl rfl rfl⟩

/-- C15 (evaluation of the code where the claim fails): the input passes validation
and the transport returns an error and no response; `Post` panics with a nil
dereference (it reads `res.StatusCode`) instead of returning an error. -/
theorem Post_transport_error_panics :
    doValidations samplePkg oneRecordApi = Except.ok none ∧
    InsertApi.Post samplePkg (sampleEnv (none, some "connection refused") none)
      oneRecordApi "token" = Except.error Panic.nilDereference :=
  ⟨rfl, rfl⟩

/-! ## InvokeConnectionApi.Post: claim C16 -/

theorem queryLoop_supported (pkg : Pkg) (env : Env) (params : List (String × QueryVal)) :
    ∀ query, (∀ kv ∈ params, isSupported kv.2 = true) →
      ∃ query1, queryLoop pkg env params query = Except.ok query1 := by
  induction params with
  | nil => intro query _; exact ⟨query, rfl⟩
  | cons kv rest ih =>
    intro query h
    obtain ⟨index, value⟩ := kv
    have hv : isSupported value = true := h (index, value) (List.mem_cons_self _ _)
    have hrest : ∀ kv ∈ rest, isSupported kv.2 = true :=
      fun kv hkv => h kv (List.mem_cons_of_mem _ hkv)
    cases value with
    | int v => exact ih _ hrest
    | float64 v => exact ih _ hrest
    | string v => exact ih _ hrest
    | bool v => exact ih _ hrest
    | numeric typ => cases hv
    | other typ => cases hv

theorem queryLoop_unsupported (pkg : Pkg) (env : Env) (params : List (String × QueryVal)) :
    ∀ query, (∃ kv ∈ params, isSupported kv.2 = false) →
      ∃ index, queryLoop pkg env params query =
        Except.error (NewSkyflowError pkg.SdkErrorCode
          (Sprintf Message.INVALID_FIELD_IN_QUERY_PARAMS [connectionTag, index])) := by
  induction params with
  | nil => intro query h; obtain ⟨kv, hkv, _⟩ := h; cases hkv
  | cons kv rest ih =>
    intro query h
    obtain ⟨index, value⟩ := kv
    have hrest : isSupported value = true → ∃ kv ∈ rest, isSupported kv.2 = false := by
      intro hv
      obtain ⟨kv1, hmem, hbad⟩ := h
      rcases List.mem_cons.mp hmem with rfl | hmem
      · rw [hv] at hbad; cases hbad
      · exact ⟨kv1, hmem, hbad⟩
    cases value with
    | int v => exact ih _ (hrest rfl)
    | float64 v => exact ih _ (hrest rfl)
    | string v => exact ih _ (hrest rfl)
    | bool v => exact ih _ (hrest rfl)
    | numeric typ => exact ⟨index, rfl⟩
    | other typ => exact ⟨index, rfl⟩

theorem connection_doValidations_none (pkg : Pkg) (env : Env) (api : InvokeConnectionApi)
    (hurl : api.ConnectionConfig.ConnectionURL ≠ "")
    (hvalid : env.isValidUrl api.ConnectionConfig.ConnectionURL = true) :
    InvokeConnectionApi.doValidations pkg env api = none := by
  simp only [InvokeConnectionApi.doValidations, hurl, if_false, hvalid, Bool.not_true,
    Bool.false_eq_true]

/-- C16 (counterexample): the only query parameter holds a number of type `int64`; every
value is a string, a number or a bool, and `Post` fails with the invalid-query-parameter
error without handing a request to the transport. -/
theorem Post_rejects_int64 :
    (∀ kv ∈ [("n", QueryVal.numeric "int64")], isStringNumberOrBool kv.2 = true) ∧
    (∃ outcome,
      InvokeConnectionApi.Post samplePkg
        (sampleEnv (some { StatusCode := 200, Body := "body" }, none) (some []))
        (sampleConnection "https://connection.example/v1" []
          [("n", QueryVal.numeric "int64")]) = Except.ok outcome ∧
      outcome.sent = [] ∧
      outcome.err = some (NewSkyflowError "400"
        (Sprintf Message.INVALID_FIELD_IN_QUERY_PARAMS ["InvokeConnection", "n"]))) :=
  ⟨by decide, _, rfl, rfl, rfl⟩

/-- C16 (amended): for every connection configuration with a valid connection URL
(validation passes and the request can be built) and a serialisable request body,
`Post` fails with the invalid-query-parameter validation error, without handing any
request to the transport, if and only if some query parameter value is not a `string`,
an `int`, a `float64` or a `bool`. -/
theorem Post_query_error_iff (pkg : Pkg) (env : Env) (api : InvokeConnectionApi)
    (requestBody : String) (request : Request)
    (hurl : api.ConnectionConfig.ConnectionURL ≠ "")
    (hvalid : env.isValidUrl api.ConnectionConfig.ConnectionURL = true)
    (hmarshal : env.Marshal api.ConnectionConfig.RequestBody = Except.ok requestBody)
    (hrequest : env.NewRequest api.ConnectionConfig.MethodName
      (String.mk (pathLoop api.ConnectionConfig.PathParams
        api.ConnectionConfig.ConnectionURL.toList)) requestBody = some request) :
    (∃ index, InvokeConnectionApi.Post pkg env api =
      Except.ok
        { sent := []
          result := none
          err := some (NewSkyflowError pkg.SdkErrorCode
            (Sprintf Message.INVALID_FIELD_IN_QUERY_PARAMS [connectionTag, index])) }) ↔
      ∃ kv ∈ api.ConnectionConfig.QueryParams, isSupported kv.2 = false := by
  have hval := connection_doValidations_none pkg env api hurl hvalid
  constructor
  · rintro ⟨index, hpost⟩
    by_contra hnone
    have hall : ∀ kv ∈ api.ConnectionConfig.QueryParams, isSupported kv.2 = true := by
      intro kv hkv
      cases hs : isSupported kv.2 with
      | true => rfl
      | false => exact absurd ⟨kv, hkv, hs⟩ hnone
    obtain ⟨query1, hq⟩ := queryLoop_supported pkg env _ request.query hall
    unfold InvokeConnectionApi.Post at hpost
    simp only [hval, hmarshal, hrequest, hq] at hpost
    split at hpost
    · have := congrArg Outcome.sent (Except.ok.inj hpost)
      simp at this
    · cases hpost
    · split at hpost
      · have := congrArg Outcome.sent (Except.ok.inj hpost)
        simp at this
      · have := congrArg Outcome.sent (Except.ok.inj hpost)
        simp at this
  · intro h
    obtain ⟨index, hq⟩ := queryLoop_unsupported pkg env _ request.query h
    refine ⟨index, ?_⟩
    unfold InvokeConnectionApi.Post
    simp only [hval, hmarshal, hrequest, hq]

/-- C16 (amended), at two configurations: with the query parameters
`{a: "x", b: 3, c: true}` the request is handed to the transport and the result
returned; with `{a: "x", tags: <a slice>}` the call fails with the
invalid-query-parameter error for `tags`. -/
theorem Post_query_error_iff_witness :
    (sampleConnection "https://connection.example/v1" []
      [("a", QueryVal.string "x"), ("tags", QueryVal.other "[]string")]
      ).ConnectionConfig.ConnectionURL ≠ "" ∧
    (∃ index, InvokeConnectionApi.Post samplePkg
      (sampleEnv (some { StatusCode := 200, Body := "body" }, none) (some []))
      (sampleConnection "https://connection.example/v1" []
        [("a", QueryVal.string "x"), ("tags", QueryVal.other "[]string")]) =
      Except.ok
        { sent := []
          result := none
          err := some (NewSkyflowError samplePkg.SdkErrorCode
            (Sprintf Message.INVALID_FIELD_IN_QUERY_PARAMS [connectionTag, index])) }) ∧
    InvokeConnectionApi.Post samplePkg
      (sampleEnv (some { StatusCode := 200, Body := "body" }, none) (some []))
      (sampleConnection "https://connection.example/v1" []
        [("a", QueryVal.string "x"), ("b", QueryVal.int 3), ("c", QueryVal.bool true)]) =
      Except.ok
        { sent := [{ method := "POST", url := "https://connection.example/v1",
                     body := "payload",
                     header := [("X-Skyflow-Authorization", "token"),
                       ("Content-Type", "application/json")],
                     query := [("a", "x"), ("b", "3"), ("c", "true")] }]
          result := some []
          err := none } :=
  ⟨by decide,
    (Post_query_error_iff samplePkg
      (sampleEnv (some { StatusCode := 200, Body := "body" }, none) (some []))
      (sampleConnection "https://connection.example/v1" []
        [("a", QueryVal.string "x"), ("tags", QueryVal.other "[]string")])
      "payload"
      { method := "POST", url := "https://connection.example/v1", body := "payload",
        header := [], query := [] }
      (by decide) rfl rfl rfl).mpr
      ⟨("tags", QueryVal.other "[]string"),
        List.mem_cons_of_mem _ (List.mem_cons_self _ _), rfl⟩,
    rfl⟩

/-! ## Path parameters: claim C20 -/

theorem replaceAll_go_skip (old new : List Char) :
    ∀ (xs rest : List Char) (k : Nat), xs.length = k →
      replaceAll.go old new k (xs ++ rest) = replaceAll.go old new 0 rest := by
  intro xs
  induction xs with
  | nil => intro rest k hk; subst hk; rfl
  | cons x xs ih =>
    intro rest k hk
    cases k with
    | zero => cases hk
    | succ k =>
      have hk1 : xs.length = k := Nat.succ.inj hk
      simp only [List.cons_append, replaceAll.go]
      exact ih rest k hk1

theorem replaceAll_match (o : Char) (os new rest : List Char) :
    replaceAll (o :: os) new ((o :: os) ++ rest) = new ++ replaceAll (o :: os) new rest := by
  have hpre : (o :: os).isPrefixOf (o :: (os ++ rest)) = true :=
    List.isPrefixOf_iff_prefix.mpr (List.prefix_append (o :: os) rest)
  show replaceAll.go (o :: os) new 0 (o :: (os ++ rest)) = new ++ replaceAll.go (o :: os) new 0 rest
  rw [replaceAll.go, if_pos hpre]
  simp only [List.length_cons, Nat.add_sub_cancel]
  rw [replaceAll_go_skip (o :: os) new os rest os.length rfl]

theorem replaceAll_nomatch (old new : List Char) (c : Char) (cs : List Char)
    (h : ¬ old <+: c :: cs) :
    replaceAll old new (c :: cs) = c :: replaceAll old new cs := by
  have hpre : old.isPrefixOf (c :: cs) = false := by
    cases hb : old.isPrefixOf (c :: cs) with
    | false => rfl
    | true => exact absurd (List.isPrefixOf_iff_prefix.mp hb) h
  simp only [replaceAll, replaceAll.go, hpre, Bool.false_eq_true, if_false]

theorem substituteAll_go_skip (params : List (String × String)) :
    ∀ (xs rest : List Char) (k : Nat), xs.length = k →
      substituteAll.go params k (xs ++ rest) = substituteAll.go params 0 rest := by
  intro xs
  induction xs with
  | nil => intro rest k hk; subst hk; rfl
  | cons x xs ih =>
    intro rest k hk
    cases k with
    | zero => cases hk
    | succ k =>
      have hk1 : xs.length = k := Nat.succ.inj hk
      simp only [List.cons_append, substituteAll.go]
      exact ih rest k hk1

theorem substituteAll_match (params : List (String × String)) (p : String × String)
    (rest : List Char) (h : findParam params (placeholder p.1 ++ rest) = some p) :
    substituteAll params (placeholder p.1 ++ rest) =
      p.2.toList ++ substituteAll params rest := by
  have h1 : findParam params ('{' :: ((p.1.toList ++ ['}']) ++ rest)) = some p := h
  show substituteAll.go params 0 ('{' :: ((p.1.toList ++ ['}']) ++ rest)) =
    p.2.toList ++ substituteAll.go params 0 rest
  rw [substituteAll.go]
  simp only [h1]
  have hlen : (placeholder p.1).length - 1 = (p.1.toList ++ ['}']).length := by
    simp [placeholder]
  rw [hlen, substituteAll_go_skip params (p.1.toList ++ ['}']) rest _ rfl]

theorem substituteAll_nomatch (params : List (String × String)) (c : Char) (cs : List Char)
    (h : findParam params (c :: cs) = none) :
    substituteAll params (c :: cs) = c :: substituteAll params cs := by
  simp only [substituteAll, substituteAll.go, h]

theorem placeholder_prefix_open (n : String) (c : Char) (cs : List Char)
    (h : placeholder n <+: c :: cs) : c = '{' := by
  unfold placeholder at h
  exact (List.cons_prefix_cons.mp h).1.symm

theorem findParam_none_of_ne (params : List (String × String)) (c : Char) (cs : List Char)
    (hc : c ≠ '{') : findParam params (c :: cs) = none := by
  unfold findParam
  rw [List.find?_eq_none]
  intro p _ hp
  exact hc (placeholder_prefix_open p.1 c cs (List.isPrefixOf_iff_prefix.mp hp))

theorem findParam_some (params : List (String × String)) (s : List Char)
    (p : String × String) (h : findParam params s = some p) :
    p ∈ params ∧ ∃ rest, s = placeholder p.1 ++ rest := by
  unfold findParam at h
  have h1 := List.find?_some h
  have h2 := List.mem_of_find?_eq_some h
  obtain ⟨rest, hrest⟩ := List.isPrefixOf_iff_prefix.mp h1
  exact ⟨h2, rest, hrest.symm⟩

theorem findParam_none (params : List (String × String)) (s : List Char) :
    findParam params s = none ↔ ∀ p ∈ params, ¬ placeholder p.1 <+: s := by
  unfold findParam
  rw [List.find?_eq_none]
  constructor
  · intro h p hp hpre
    exact h p hp (List.isPrefixOf_iff_prefix.mpr hpre)
  · intro h p hp hpre
    exact h p hp (List.isPrefixOf_iff_prefix.mp hpre)

theorem substituteAll_nil (params : List (String × String)) : substituteAll params [] = [] := rfl

theorem replaceAll_nil (old new : List Char) : replaceAll old new [] = [] := rfl

theorem substituteAll_pass (params : List (String × String)) (u rest : List Char)
    (h : '{' ∉ u) : substituteAll params (u ++ rest) = u ++ substituteAll params rest := by
  induction u with
  | nil => rfl
  | cons a u ih =>
    have ha : a ≠ '{' := fun e => h (e ▸ List.mem_cons_self _ _)
    have hu : '{' ∉ u := fun e => h (List.mem_cons_of_mem _ e)
    rw [List.cons_append, substituteAll_nomatch params a _ (findParam_none_of_ne params a _ ha),
      ih hu, List.cons_append]

theorem replaceAll_pass (n : String) (new u rest : List Char) (h : '{' ∉ u) :
    replaceAll (placeholder n) new (u ++ rest) = u ++ replaceAll (placeholder n) new rest := by
  induction u with
  | nil => rfl
  | cons a u ih =>
    have ha : a ≠ '{' := fun e => h (e ▸ List.mem_cons_self _ _)
    have hu : '{' ∉ u := fun e => h (List.mem_cons_of_mem _ e)
    rw [List.cons_append, replaceAll_nomatch _ new a _
      (fun hpre => ha (placeholder_prefix_open n a _ hpre)), ih hu, List.cons_append]

theorem NoNested_suffix (pre s : List Char) (h : NoNested (pre ++ s)) : NoNested s := by
  intro pre1 mid post hs hclose
  exact h (pre ++ pre1) mid post (by rw [hs, List.append_assoc]) hclose

theorem findParam_append_some (ps : List (String × String)) (p q : String × String)
    (s : List Char) (h : findParam ps s = some q) : findParam (ps ++ [p]) s = some q := by
  unfold findParam at h ⊢
  rw [List.find?_append, h]
  rfl

theorem findParam_append_match (ps : List (String × String)) (p : String × String)
    (s : List Char) (h : findParam ps s = none) (hp : placeholder p.1 <+: s) :
    findParam (ps ++ [p]) s = some p := by
  unfold findParam at h ⊢
  rw [List.find?_append, h]
  simp [List.isPrefixOf_iff_prefix.mpr hp]

theorem findParam_append_none (ps : List (String × String)) (p : String × String)
    (s : List Char) (h : findParam ps s = none) (hp : ¬ placeholder p.1 <+: s) :
    findParam (ps ++ [p]) s = none := by
  rw [findParam_none] at h ⊢
  intro q hq
  rcases List.mem_append.mp hq with hq | hq
  · exact h q hq
  · rw [List.mem_singleton] at hq
    subst hq
    exact hp

theorem closing_prefix_substituteAll (ps : List (String × String))
    (hnames : ∀ q ∈ ps, '}' ∉ q.1.toList) :
    ∀ (cs w : List Char), BraceFree w → w ++ ['}'] <+: substituteAll ps cs →
      (w ++ ['}'] <+: cs ∨
        ∃ mid post, cs = mid ++ '}' :: post ∧ '}' ∉ mid ∧ '{' ∈ mid) := by
  intro cs
  induction cs with
  | nil =>
    intro w _ h
    rw [substituteAll_nil, List.prefix_nil] at h
    cases w <;> cases h
  | cons d ds ih =>
    intro w hw h
    cases hfind : findParam ps (d :: ds) with
    | some q =>
      obtain ⟨hq, rest, hrest⟩ := findParam_some ps _ q hfind
      refine Or.inr ⟨'{' :: q.1.toList, rest, ?_, ?_, List.mem_cons_self _ _⟩
      · rw [hrest]
        simp [placeholder]
      · intro hmem
        rcases List.mem_cons.mp hmem with hc | hc
        · exact absurd hc (by decide)
        · exact hnames q hq hc
    | none =>
      rw [substituteAll_nomatch ps d ds hfind] at h
      cases w with
      | nil =>
        have hd : '}' = d := (List.cons_prefix_cons.mp h).1
        subst hd
        exact Or.inl (List.cons_prefix_cons.mpr ⟨rfl, List.nil_prefix⟩)
      | cons e w1 =>
        rw [List.cons_append] at h
        obtain ⟨hed, htail⟩ := List.cons_prefix_cons.mp h
        subst hed
        have hw1 : BraceFree w1 :=
          ⟨fun hm => hw.1 (List.mem_cons_of_mem _ hm), fun hm => hw.2 (List.mem_cons_of_mem _ hm)⟩
        have he1 : e ≠ '}' := fun heq => hw.2 (heq ▸ List.mem_cons_self _ _)
        rcases ih w1 hw1 htail with hleft | ⟨mid, post, hds, hclose, hopen⟩
        · exact Or.inl (by rw [List.cons_append]; exact List.cons_prefix_cons.mpr ⟨rfl, hleft⟩)
        · refine Or.inr ⟨e :: mid, post, by rw [hds]; rfl, ?_, List.mem_cons_of_mem _ hopen⟩
          intro hmem
          rcases List.mem_cons.mp hmem with hc | hc
          · exact he1 hc.symm
          · exact hclose hc

theorem replaceAll_substituteAll (ps : List (String × String)) (p : String × String)
    (hps : ∀ q ∈ ps, BraceFree q.1.toList ∧ BraceFree q.2.toList)
    (hp : BraceFree p.1.toList) :
    ∀ (n : Nat) (url : List Char), url.length ≤ n → NoNested url →
      replaceAll (placeholder p.1) p.2.toList (substituteAll ps url) =
        substituteAll (ps ++ [p]) url := by
  intro n
  induction n with
  | zero =>
    intro url hlen _
    have : url = [] := List.length_eq_zero.mp (Nat.le_zero.mp hlen)
    subst this
    rfl
  | succ n ih =>
    intro url hlen hurl
    cases url with
    | nil => rfl
    | cons c cs =>
      have hcs : NoNested cs := NoNested_suffix [c] cs hurl
      have hlen1 : cs.length ≤ n := Nat.le_of_succ_le_succ hlen
      cases hfind : findParam ps (c :: cs) with
      | some q =>
        obtain ⟨hq, rest, hrest⟩ := findParam_some ps _ q hfind
        have hrestN : NoNested rest := NoNested_suffix (placeholder q.1) rest (hrest ▸ hurl)
        have hrestL : rest.length ≤ n := by
          have := congrArg List.length hrest
          simp [placeholder] at this
          omega
        rw [hrest] at hfind ⊢
        rw [substituteAll_match ps q rest hfind,
          substituteAll_match (ps ++ [p]) q rest (findParam_append_some ps p q _ hfind),
          replaceAll_pass p.1 p.2.toList q.2.toList _ (hps q hq).2.1,
          ih rest hrestL hrestN]
      | none =>
        rw [substituteAll_nomatch ps c cs hfind]
        by_cases hpre : placeholder p.1 <+: c :: cs
        · obtain ⟨rest, hrest⟩ := hpre
          have hrestN : NoNested rest :=
            NoNested_suffix (placeholder p.1) rest (hrest ▸ hurl)
          have hrestL : rest.length ≤ n := by
            have := congrArg List.length hrest
            simp [placeholder] at this
            omega
          have hc : c = '{' ∧ cs = (p.1.toList ++ ['}']) ++ rest := by
            have : '{' :: ((p.1.toList ++ ['}']) ++ rest) = c :: cs := hrest
            exact ⟨(List.cons.inj this).1.symm, (List.cons.inj this).2.symm⟩
          have hfree : '{' ∉ p.1.toList ++ ['}'] := by
            intro hmem
            rcases List.mem_append.mp hmem with hm | hm
            · exact hp.1 hm
            · rw [List.mem_singleton] at hm
              exact absurd hm (by decide)
          have hfind2 : findParam (ps ++ [p]) (placeholder p.1 ++ rest) = some p :=
            findParam_append_match ps p _ (hrest ▸ hfind) (List.prefix_append _ _)
          rw [← hrest, substituteAll_match (ps ++ [p]) p rest hfind2, hc.1, hc.2,
            substituteAll_pass ps _ rest hfree]
          have hshape : '{' :: (p.1.toList ++ ['}'] ++ substituteAll ps rest) =
              placeholder p.1 ++ substituteAll ps rest := rfl
          rw [hshape]
          have hm : replaceAll (placeholder p.1) p.2.toList
              (placeholder p.1 ++ substituteAll ps rest) =
              p.2.toList ++ replaceAll (placeholder p.1) p.2.toList (substituteAll ps rest) :=
            replaceAll_match '{' (p.1.toList ++ ['}']) p.2.toList _
          rw [hm, ih rest hrestL hrestN]
        · rw [substituteAll_nomatch (ps ++ [p]) c cs (findParam_append_none ps p _ hfind hpre)]
          have hno : ¬ placeholder p.1 <+: c :: substituteAll ps cs := by
            intro hbad
            have hc : c = '{' := placeholder_prefix_open p.1 c _ hbad
            have htail : p.1.toList ++ ['}'] <+: substituteAll ps cs :=
              (List.cons_prefix_cons.mp hbad).2
            rcases closing_prefix_substituteAll ps (fun q hq => (hps q hq).1.2) cs p.1.toList hp
              htail with hleft | ⟨mid, post, hmid, hclose, hopen⟩
            · exact hpre (by
                unfold placeholder
                exact List.cons_prefix_cons.mpr ⟨hc.symm, hleft⟩)
            · exact hurl [] mid post (by rw [hc, hmid]; rfl) hclose hopen
          rw [replaceAll_nomatch _ _ c _ hno, ih cs hlen1 hcs]

theorem pathLoop_append (ps : List (String × String)) (p : String × String) :
    ∀ url, pathLoop (ps ++ [p]) url =
      replaceAll (placeholder p.1) p.2.toList (pathLoop ps url) := by
  induction ps with
  | nil => intro url; rfl
  | cons q ps ih =>
    intro url
    obtain ⟨index, value⟩ := q
    simp only [List.cons_append, pathLoop]
    exact ih _

theorem substituteAll_empty : ∀ url, substituteAll [] url = url := by
  intro url
  induction url with
  | nil => rfl
  | cons c cs ih =>
    rw [substituteAll_nomatch [] c cs rfl, ih]

theorem pathLoop_eq_substituteAll (params : List (String × String)) (url : List Char)
    (hfree : ∀ p ∈ params, BraceFree p.1.toList ∧ BraceFree p.2.toList)
    (hurl : NoNested url) :
    pathLoop params url = substituteAll params url := by
  induction params using List.reverseRecOn with
  | nil => exact (substituteAll_empty url).symm
  | append_singleton ps p ih =>
    have hps : ∀ q ∈ ps, BraceFree q.1.toList ∧ BraceFree q.2.toList :=
      fun q hq => hfree q (List.mem_append_left _ hq)
    have hp : BraceFree p.1.toList :=
      (hfree p (List.mem_append_right _ (List.mem_singleton.mpr rfl))).1
    rw [pathLoop_append, ih hps]
    exact replaceAll_substituteAll ps p hps hp url.length url (Nat.le_refl _) hurl

theorem closing_prefix_unique :
    ∀ (n1 n2 t : List Char), '}' ∉ n1 → '}' ∉ n2 →
      n1 ++ ['}'] <+: t → n2 ++ ['}'] <+: t → n1 = n2 := by
  intro n1
  induction n1 with
  | nil =>
    intro n2 t _ h2 hp1 hp2
    cases t with
    | nil => simp at hp1
    | cons a t =>
      have ha : '}' = a := (List.cons_prefix_cons.mp hp1).1
      cases n2 with
      | nil => rfl
      | cons b n2 =>
        have hb : b = a := (List.cons_prefix_cons.mp hp2).1
        have hb1 : b = '}' := hb.trans ha.symm
        have hmem : '}' ∈ b :: n2 := by rw [← hb1]; exact List.mem_cons_self b n2
        exact absurd hmem h2
  | cons a n1 ih =>
    intro n2 t h1 h2 hp1 hp2
    cases t with
    | nil => simp at hp1
    | cons c t =>
      obtain ⟨hac, hp1t⟩ := List.cons_prefix_cons.mp hp1
      cases n2 with
      | nil =>
        have hc : '}' = c := (List.cons_prefix_cons.mp hp2).1
        have ha1 : a = '}' := hac.trans hc.symm
        have hmem : '}' ∈ a :: n1 := by rw [← ha1]; exact List.mem_cons_self a n1
        exact absurd hmem h1
      | cons b n2 =>
        obtain ⟨hbc, hp2t⟩ := List.cons_prefix_cons.mp hp2
        have hrec := ih n2 t (fun hm => h1 (List.mem_cons_of_mem _ hm))
          (fun hm => h2 (List.mem_cons_of_mem _ hm)) hp1t hp2t
        rw [hac, hbc, hrec]

theorem placeholder_unique (p q : String × String) (s : List Char)
    (hp : '}' ∉ p.1.toList) (hq : '}' ∉ q.1.toList)
    (hps : placeholder p.1 <+: s) (hqs : placeholder q.1 <+: s) : p.1 = q.1 := by
  cases s with
  | nil => simp [placeholder] at hps
  | cons c cs =>
    have h1 : p.1.toList ++ ['}'] <+: cs := (List.cons_prefix_cons.mp hps).2
    have h2 : q.1.toList ++ ['}'] <+: cs := (List.cons_prefix_cons.mp hqs).2
    exact String.ext (closing_prefix_unique _ _ cs hp hq h1 h2)

theorem findParam_perm (params params1 : List (String × String)) (s : List Char)
    (hperm : params.Perm params1) (hnodup : (params.map Prod.fst).Nodup)
    (hfree : ∀ p ∈ params, BraceFree p.1.toList ∧ BraceFree p.2.toList) :
    findParam params s = findParam params1 s := by
  cases h : findParam params s with
  | none =>
    symm
    rw [findParam_none] at h ⊢
    intro p hp
    exact h p (hperm.mem_iff.mpr hp)
  | some p =>
    obtain ⟨hp, rest, hrest⟩ := findParam_some params s p h
    cases h1 : findParam params1 s with
    | none =>
      rw [findParam_none] at h1
      exact absurd (hrest ▸ List.prefix_append _ _) (h1 p (hperm.mem_iff.mp hp))
    | some q =>
      obtain ⟨hq1, rest1, hrest1⟩ := findParam_some params1 s q h1
      have hq : q ∈ params := hperm.mem_iff.mpr hq1
      have hname : p.1 = q.1 :=
        placeholder_unique p q s (hfree p hp).1.2 (hfree q hq).1.2
          (hrest ▸ List.prefix_append _ _) (hrest1 ▸ List.prefix_append _ _)
      rw [List.inj_on_of_nodup_map hnodup hp hq hname]

theorem substituteAll_go_congr (params params1 : List (String × String))
    (h : ∀ s, findParam params s = findParam params1 s) :
    ∀ (s : List Char) (k : Nat), substituteAll.go params k s = substituteAll.go params1 k s := by
  intro s
  induction s with
  | nil => intro k; cases k <;> rfl
  | cons c cs ih =>
    intro k
    cases k with
    | succ k => simp only [substituteAll.go]; exact ih k
    | zero =>
      simp only [substituteAll.go, h (c :: cs)]
      cases findParam params1 (c :: cs) with
      | none => simp only [ih 0]
      | some p => simp only [ih]

theorem opensBeforeClose_of_mem :
    ∀ (mid post : List Char), '}' ∉ mid → '{' ∈ mid →
      opensBeforeClose (mid ++ '}' :: post) = true := by
  intro mid
  induction mid with
  | nil => intro post _ h; cases h
  | cons m ms ih =>
    intro post hclose hopen
    have hm : m ≠ '}' := fun e => hclose (e ▸ List.mem_cons_self _ _)
    have hms : '}' ∉ ms := fun e => hclose (List.mem_cons_of_mem _ e)
    by_cases hmo : m = '{'
    · simp [opensBeforeClose, hm, hmo]
    · have hopen1 : '{' ∈ ms := by
        rcases List.mem_cons.mp hopen with e | e
        · exact absurd e.symm hmo
        · exact e
      simp only [List.cons_append, opensBeforeClose, hm, hmo, if_false]
      exact ih post hms hopen1

theorem NoNested_of_check : ∀ (url : List Char), noNestedCheck url = true → NoNested url := by
  intro url
  induction url with
  | nil =>
    intro _ pre mid post h
    cases pre <;> cases h
  | cons c cs ih =>
    intro hcheck pre mid post h hclose hopen
    simp only [noNestedCheck, Bool.and_eq_true] at hcheck
    obtain ⟨hhead, htail⟩ := hcheck
    cases pre with
    | nil =>
      have hc : c = '{' := (List.cons.inj h).1
      have hcs : cs = mid ++ '}' :: post := (List.cons.inj h).2
      rw [hc, hcs, opensBeforeClose_of_mem mid post hclose hopen] at hhead
      simp at hhead
    | cons a pre =>
      have hcs : cs = pre ++ '{' :: (mid ++ '}' :: post) := (List.cons.inj h).2
      exact ih htail pre mid post hcs hclose hopen

/-- C20: the path-parameter substitution of `InvokeConnectionApi.Post` (every occurrence
of the placeholder of a parameter becomes the parameter's value, one parameter after
another) yields the same URL for every order in which the parameters are processed,
provided the parameter names are distinct (they are the keys of a map), no parameter
name or value contains an opening or a closing brace and the URL template has no
nested braces; the result is the simultaneous replacement of every placeholder of the
template. -/
theorem pathLoop_order_independent (params params1 : List (String × String))
    (url : List Char) (hperm : params.Perm params1)
    (hnodup : (params.map Prod.fst).Nodup)
    (hfree : ∀ p ∈ params, BraceFree p.1.toList ∧ BraceFree p.2.toList)
    (hurl : NoNested url) :
    pathLoop params url = pathLoop params1 url ∧
      pathLoop params url = substituteAll params url := by
  have hfree1 : ∀ p ∈ params1, BraceFree p.1.toList ∧ BraceFree p.2.toList :=
    fun p hp => hfree p (hperm.mem_iff.mpr hp)
  have h1 := pathLoop_eq_substituteAll params url hfree hurl
  have h2 := pathLoop_eq_substituteAll params1 url hfree1 hurl
  refine ⟨?_, h1⟩
  rw [h1, h2]
  exact substituteAll_go_congr params params1
    (fun s => findParam_perm params params1 s hperm hnodup hfree) url 0

theorem sample_params_free :
    ∀ p ∈ [("id", "7"), ("name", "bob")], BraceFree p.1.toList ∧ BraceFree p.2.toList := by
  intro p hp
  rcases List.mem_cons.mp hp with rfl | hp
  · exact ⟨⟨by decide, by decide⟩, ⟨by decide, by decide⟩⟩
  · rw [List.mem_singleton] at hp
    subst hp
    exact ⟨⟨by decide, by decide⟩, ⟨by decide, by decide⟩⟩

/-- C20, at the template `https://x/<id>/<name>/<id>` (the placeholders in braces) with
the parameters id = 7 and name = bob: both processing orders give
`https://x/7/bob/7`. -/
theorem pathLoop_order_independent_witness :
    [("id", "7"), ("name", "bob")].Perm [("name", "bob"), ("id", "7")] ∧
    ([("id", "7"), ("name", "bob")].map Prod.fst).Nodup ∧
    NoNested "https://x/\x7bid\x7d/\x7bname\x7d/\x7bid\x7d".toList ∧
    (pathLoop [("id", "7"), ("name", "bob")]
        "https://x/\x7bid\x7d/\x7bname\x7d/\x7bid\x7d".toList =
      pathLoop [("name", "bob"), ("id", "7")]
        "https://x/\x7bid\x7d/\x7bname\x7d/\x7bid\x7d".toList ∧
     pathLoop [("id", "7"), ("name", "bob")]
        "https://x/\x7bid\x7d/\x7bname\x7d/\x7bid\x7d".toList =
      substituteAll [("id", "7"), ("name", "bob")]
        "https://x/\x7bid\x7d/\x7bname\x7d/\x7bid\x7d".toList) ∧
    pathLoop [("name", "bob"), ("id", "7")]
        "https://x/\x7bid\x7d/\x7bname\x7d/\x7bid\x7d".toList = "https://x/7/bob/7".toList :=
  ⟨List.Perm.swap _ _ _, by decide, NoNested_of_check _ (by decide),
    pathLoop_order_independent [("id", "7"), ("name", "bob")] [("name", "bob"), ("id", "7")]
      "https://x/\x7bid\x7d/\x7bname\x7d/\x7bid\x7d".toList
      (List.Perm.swap _ _ _) (by decide) sample_params_free (NoNested_of_check _ (by decide)),
    by decide⟩

end Skyflow
